import Mathlib

/-!
Verification of the reconciliation engine of the DWH validation tool.

The Python source (src/compare.py, src/main.py) operates on pandas
DataFrames whose cells are strings or missing values.  Two distinct
missing sentinels occur and behave differently under elementwise `==`:
`numpy.nan` (produced by `read_excel(dtype=str)` for blank cells and by
outer-merge fill), which compares `False` against everything, and
`pandas.NA` (produced by `astype("string")` on the normalized key column
and by the `pd.Series(pd.NA, ...)` filler for absent columns), which
propagates missingness through comparisons (Kleene logic).  The
embedding models both.
-/

namespace DWH

/-- A DataFrame cell: a string, the numpy-NaN missing sentinel, or the
pandas-NA missing sentinel. -/
inductive Cell where
  | str (s : String)
  | nan
  | na
deriving DecidableEq, Repr

/-- `pd.isna` on a cell. -/
def Cell.isna : Cell → Bool
  | .str _ => false
  | _ => true

/-- Three-valued boolean (pandas boolean with `pd.NA`). -/
inductive TB where
  | t
  | f
  | na
deriving DecidableEq, Repr

/-- Kleene conjunction, as pandas `&` computes it on True/False/NA. -/
def TB.and : TB → TB → TB
  | .f, _ => .f
  | _, .f => .f
  | .t, .t => .t
  | _, _ => .na

/-- Kleene disjunction, as pandas `|` computes it on True/False/NA. -/
def TB.or : TB → TB → TB
  | .t, _ => .t
  | _, .t => .t
  | .f, .f => .f
  | _, _ => .na

/-- Embed a definite boolean. -/
def TB.ofBool (b : Bool) : TB := if b then .t else .f

/-- Elementwise `==` of two object-dtype cells: `pd.NA` propagates NA,
`numpy.nan` compares unequal to everything (including itself). -/
def cellEq : Cell → Cell → TB
  | .na, _ => .na
  | _, .na => .na
  | .nan, _ => .f
  | _, .nan => .f
  | .str a, .str b => .ofBool (a == b)

/-- Definite string equality of cells: two cells are equal only when both
are the same string; a missing value equals nothing (the "standard
semantics" the spec refers to). -/
def cellEqStrict : Cell → Cell → Bool
  | .str a, .str b => a == b
  | _, _ => false

/-- Join-key equality used by `pandas.merge`: missing join keys are
grouped together (NaN matches NaN in a merge). -/
def keyEq : Cell → Cell → Bool
  | .str a, .str b => a == b
  | .str _, _ => false
  | _, .str _ => false
  | _, _ => true

/-- `.map({True: "ja", False: "nee"})` on a definite boolean. -/
def boolJaNee (b : Bool) : Cell := if b then .str "ja" else .str "nee"

/-- `.map({True: "ja", False: "nee"})` on a pandas boolean: `pd.NA` is not
a key of the dict, so it maps to NaN. -/
def mapJaNee : TB → Cell
  | .t => .str "ja"
  | .f => .str "nee"
  | .na => .nan

/-! ### Python string primitives (on ASCII text) -/

/-- Characters stripped by Python's `str.strip()` (ASCII whitespace). -/
def isPyWs (c : Char) : Bool :=
  c = ' ' || c = '\t' || c = '\n' || c = '\r' || c = '\x0b' || c = '\x0c'

/-- `str.strip()` on the character list. -/
def stripChars (l : List Char) : List Char :=
  ((l.dropWhile isPyWs).reverse.dropWhile isPyWs).reverse

/-- `str.strip()`. -/
def pyStrip (s : String) : String := String.mk (stripChars s.data)

/-- `str.replace(' ', '')`: remove interior space characters. -/
def removeSpaces (s : String) : String := String.mk (s.data.filter (· ≠ ' '))

/-- The separator characters `.` and `,`. -/
def isSepChar (c : Char) : Bool := c = '.' || c = ','

/-- `_is_numeric_with_separators`: the regex `^[\d][\d.,]*$` — a leading
digit followed only by digits and separators (and `if not value: False`
for the empty string; for a stripped string `$` is the end). -/
def is_numeric_chars : List Char → Bool
  | [] => false
  | c :: rest => c.isDigit && rest.all (fun d => d.isDigit || isSepChar d)

/-- `_is_numeric_with_separators` on a string. -/
def is_numeric_with_separators (s : String) : Bool := is_numeric_chars s.data

/-- `str.translate(str.maketrans('', '', ',.'))`: delete all separators. -/
def stripSeps (s : String) : String := String.mk (s.data.filter (fun c => !isSepChar c))

/-- `normalize_key_value`: missing maps to `pd.NA`; otherwise strip outer
whitespace, return `""` for an empty result, remove interior spaces, and
strip `.`/`,` when the text looks like a separator-formatted number. -/
def normalize_key_value : Cell → Cell
  | .nan => .na
  | .na => .na
  | .str v =>
    let s := pyStrip v
    if s.data.isEmpty then .str s
    else
      let s2 := removeSpaces s
      if is_numeric_with_separators s2 then .str (stripSeps s2) else .str s2

/-! ### DataFrames

A DataFrame is an ordered list of named columns together with a row
count (the length of the index).  Well-formedness (`WFb`) states that
every column has exactly `nrows` cells; the tables produced by
`pandas.read_excel`/`read_csv` always satisfy it. -/

structure DF where
  nrows : Nat
  cols : List (String × List Cell)
deriving DecidableEq, Repr

/-- All columns have exactly `nrows` cells. -/
def DF.WFb (df : DF) : Bool := df.cols.all (fun c => c.2.length == df.nrows)

/-- The column names, in order. -/
def DF.header (df : DF) : List String := df.cols.map Prod.fst

/-- `name in df.columns`. -/
def DF.hasCol (df : DF) (name : String) : Bool := df.cols.any (fun c => c.1 == name)

/-- `df[name]` as an optional column (first matching column). -/
def DF.getCol? (df : DF) (name : String) : Option (List Cell) :=
  (df.cols.find? (fun c => c.1 == name)).map Prod.snd

/-- `df[name]` with an empty default (used only where the source
guarantees presence, or models `df.get(name, default)`). -/
def DF.getColD (df : DF) (name : String) : List Cell := (df.getCol? name).getD []

/-- `df.empty`: no rows or no columns. -/
def DF.isEmpty (df : DF) : Bool := df.nrows == 0 || df.cols.isEmpty

/-- The cell of column `name` at row `i`; out-of-range positions read as
NaN (pandas reindexing fills missing positions with NaN). -/
def DF.cell (df : DF) (name : String) (i : Nat) : Cell := (df.getColD name).getD i Cell.nan

/-- `df[name] = col`: replace an existing column in place, else append. -/
def DF.setCol (df : DF) (name : String) (col : List Cell) : DF :=
  if df.hasCol name then
    { df with cols := df.cols.map (fun c => if c.1 == name then (name, col) else c) }
  else
    { df with cols := df.cols ++ [(name, col)] }

/-- `df[names]` without the raising check (every requested name is
looked up; used where presence is guaranteed). -/
def DF.selectCols (df : DF) (names : List String) : DF :=
  { df with cols := names.map (fun n => (n, df.getColD n)) }

/-! ### compare.py: projection -/

/-- `_ensure_key_column_exists`: synthesize an all-`pd.NA` key column when
it is absent. -/
def ensure_key_column_exists (df : DF) (key_column : String) : DF :=
  if df.hasCol key_column then df
  else df.setCol key_column (List.replicate df.nrows Cell.na)

/-- `_get_columns_to_keep`: the key column plus the requested comparison
columns, filtered to the columns that actually exist. -/
def get_columns_to_keep (key_column : String) (columns_to_compare : List String)
    (available : List String) : List String :=
  ([key_column] ++ columns_to_compare.filter (fun c => c ≠ key_column)).filter
    (fun c => available.contains c)

/-- `_project_single_source_data`: an empty source projects to a zero-row
frame shaped `[key] ++ columns` (note: without a `Key` column); otherwise
keep the existing requested columns and add the normalized `Key`. -/
def project_single_source_data (df : DF) (columns_to_compare : List String)
    (key_column : String) : DF :=
  if df.isEmpty then
    ⟨0, ([key_column] ++ columns_to_compare).map (fun c => (c, []))⟩
  else
    let df1 := ensure_key_column_exists df key_column
    let keep := get_columns_to_keep key_column columns_to_compare df1.header
    let projected := df1.selectCols keep
    projected.setCol "Key" ((projected.getColD key_column).map normalize_key_value)

/-- `_project_source_data` over the ordered source dictionary. -/
def project_source_data (source_to_df : List (String × DF)) (columns_to_compare : List String)
    (key_column : String) : List (String × DF) :=
  source_to_df.map (fun p => (p.1, project_single_source_data p.2 columns_to_compare key_column))

/-! ### compare.py: outer merge -/

/-- `_rename_source_columns`: suffix every non-`Key` column with the
source label. -/
def rename_source_columns (df : DF) (source : String) : DF :=
  { df with cols := df.cols.map (fun c =>
      (if c.1 == "Key" then c.1 else c.1 ++ "_" ++ source, c.2)) }

/-- The `Key` column of a frame (empty when absent). -/
def keyColD (df : DF) : List Cell := df.getColD "Key"

/-- The full outer join of two frames on `Key` (both known to carry a
`Key` column): every left row expanded by its matching right rows (or
NaN-filled when unmatched), then the unmatched right rows with the left
columns NaN-filled except `Key`. -/
def mergeOuterOk (l r : DF) : DF :=
  let lk := keyColD l
  let rk := keyColD r
  let matchesOf : Nat → List Nat := fun i =>
    (List.range r.nrows).filter (fun j => keyEq (lk.getD i Cell.nan) (rk.getD j Cell.nan))
  let leftIdx : List (Nat × List Nat) := (List.range l.nrows).map (fun i => (i, matchesOf i))
  let rightOnly : List Nat := (List.range r.nrows).filter (fun j =>
    (List.range l.nrows).all (fun i => !keyEq (lk.getD i Cell.nan) (rk.getD j Cell.nan)))
  let expandLeft : List Cell → List Cell := fun v =>
    leftIdx.flatMap (fun p =>
      if p.2.isEmpty then [v.getD p.1 Cell.nan] else p.2.map (fun _ => v.getD p.1 Cell.nan))
  let expandRight : List Cell → List Cell := fun v =>
    leftIdx.flatMap (fun p =>
      if p.2.isEmpty then [Cell.nan] else p.2.map (fun j => v.getD j Cell.nan))
  { nrows := (leftIdx.map (fun p => max 1 p.2.length)).sum + rightOnly.length
    cols :=
      l.cols.map (fun c =>
        (c.1, expandLeft c.2 ++ rightOnly.map (fun j =>
          if c.1 == "Key" then rk.getD j Cell.nan else Cell.nan)))
      ++ (r.cols.filter (fun c => c.1 ≠ "Key")).map (fun c =>
        (c.1, expandRight c.2 ++ rightOnly.map (fun j => c.2.getD j Cell.nan))) }

/-- `merged.merge(pdf, on="Key", how="outer")`: raises `KeyError` when
either side lacks the `Key` column. -/
def mergeOuter (l r : DF) : Except String DF :=
  if l.hasCol "Key" && r.hasCol "Key" then .ok (mergeOuterOk l r)
  else .error "KeyError: Key"

/-- The fold of `_merge_projected_data` over the remaining sources. -/
def mergeFold : DF → List (String × DF) → Except String DF
  | acc, [] => .ok acc
  | acc, (s, df) :: rest =>
    match mergeOuter acc (rename_source_columns df s) with
    | .error e => .error e
    | .ok acc2 => mergeFold acc2 rest

/-- `_merge_projected_data`: zero sources give an empty `Key`-only frame;
otherwise rename each source's columns and fold-merge on `Key`. -/
def merge_projected_data (projected_by_source : List (String × DF)) : Except String DF :=
  match projected_by_source with
  | [] => .ok ⟨0, [("Key", [])]⟩
  | (s, df) :: rest => mergeFold (rename_source_columns df s) rest

/-! ### compare.py: presence and match derivation

The result frame under construction is an ordered association list of
named columns; `pd.concat` of the per-stage dicts appends them.  The
lookups below take the first column of a given name, as pandas indexing
does for the unique names produced in practice. -/

/-- The columns of the result frame under construction. -/
abbrev ResultCols := List (String × List Cell)

/-- First column of the given name (empty when absent). -/
def rcFind (rc : ResultCols) (name : String) : List Cell :=
  ((rc.find? (fun c => c.1 == name)).map Prod.snd).getD []

/-- `name` occurs among the built columns. -/
def rcHas (rc : ResultCols) (name : String) : Bool := rc.any (fun c => c.1 == name)

/-- `set(projected_df["Key"].dropna())`: the non-missing normalized keys
of one projected source. -/
def sourceKeys (pdf : DF) : List String :=
  (keyColD pdf).filterMap (fun c => match c with | .str s => some s | _ => none)

/-- `_create_presence_series`: `merged["Key"].isin(keys)` (empty when the
merged frame is empty); a missing key is in no string set. -/
def create_presence_series (merged : DF) (keys : List String) : List Bool :=
  if merged.isEmpty then []
  else (keyColD merged).map (fun c => match c with | .str s => keys.contains s | _ => false)

/-- The `Aanwezig_<source>` columns, in source order. -/
def presenceCols (merged : DF) (projected : List (String × DF)) : ResultCols :=
  projected.map (fun p =>
    ("Aanwezig_" ++ p.1, (create_presence_series merged (sourceKeys p.2)).map boolJaNee))

/-- Pointwise `&` of two same-length boolean series. -/
def zipAnd (a b : List Bool) : List Bool := List.zipWith (fun x y => x && y) a b

/-- The running `all_present_series`: starts all-True over the merged
index and is `&`-folded with each source's presence series. -/
def allPresentSeries (merged : DF) (projected : List (String × DF)) : List Bool :=
  projected.foldl (fun acc p => zipAnd acc (create_presence_series merged (sourceKeys p.2)))
    (if merged.isEmpty then [] else List.replicate merged.nrows true)

/-- The `Match_Key` cells: the folded presence conjunction mapped to
"ja"/"nee" (empty for an empty merge). -/
def matchKeyCells (merged : DF) (projected : List (String × DF)) : List Cell :=
  if merged.isEmpty then [] else (allPresentSeries merged projected).map boolJaNee

/-- `_add_presence_columns` raises `KeyError` when a projected source
lacks its `Key` column (`set(projected_df["Key"].dropna())`). -/
def presenceColumnsOk (projected : List (String × DF)) : Bool :=
  projected.all (fun p => p.2.hasCol "Key")

/-- Lexicographic code-point order on text (Python string `<`). -/
def lexLe : List Char → List Char → Bool
  | [], _ => true
  | _ :: _, [] => false
  | x :: xs, y :: ys =>
    if x.val < y.val then true
    else if y.val < x.val then false
    else lexLe xs ys

/-- Stable insertion into a `lexLe`-sorted list. -/
def insSorted (x : String) : List String → List String
  | [] => [x]
  | y :: ys => if lexLe y.data x.data then y :: insSorted x ys else x :: y :: ys

/-- `list.sort()` on strings (stable, ascending code-point order). -/
def sortStrs : List String → List String
  | [] => []
  | x :: xs => insSorted x (sortStrs xs)

/-- `str.endswith`. -/
def strEndsWith (s suffix : String) : Bool := suffix.data.isSuffixOf s.data

/-- `str.startswith`. -/
def strStartsWith (s pre : String) : Bool := pre.data.isPrefixOf s.data

/-- The `<source>_Key` echo column: the first (sorted) merged column
suffixed with this source, or an all-`pd.NA` column when none exists. -/
def sourceKeyEcho (merged : DF) (source : String) : List Cell :=
  match sortStrs (merged.header.filter (fun c => strEndsWith c ("_" ++ source) && c ≠ "Key")) with
  | [] => List.replicate merged.nrows Cell.na
  | c :: _ => merged.getColD c

/-- The `<source>_<col>` value column: the merged `<col>_<source>` column
when present, else an all-`pd.NA` filler series. -/
def sourceValueCol (merged : DF) (source col : String) : List Cell :=
  if merged.hasCol (col ++ "_" ++ source) then merged.getColD (col ++ "_" ++ source)
  else List.replicate merged.nrows Cell.na

/-- `_add_source_columns`: per-source echoed keys, then per comparison
column (configured order) the per-source value columns. -/
def sourceColumnCols (merged : DF) (columns_to_compare : List String)
    (labels : List String) : ResultCols :=
  labels.map (fun s => (s ++ "_Key", sourceKeyEcho merged s))
  ++ columns_to_compare.flatMap (fun col =>
      labels.map (fun s => (s ++ "_" ++ col, sourceValueCol merged s col)))

/-- The per-source value series handed to `_compare_column_values`. -/
def colValuesFor (merged : DF) (labels : List String) (col : String) : List (List Cell) :=
  labels.map (fun s => sourceValueCol merged s col)

/-- `_compare_column_values`: with fewer than two series, or an empty
merge, both results are empty; otherwise the elementwise conjunction of
`ref == s` over the non-reference series, and the elementwise "all
values missing" series. -/
def compare_column_values (colValues : List (List Cell)) (merged : DF) :
    List TB × List TB :=
  if colValues.length < 2 then ([], [])
  else
    match colValues with
    | [] => ([], [])
    | ref :: rest =>
      if merged.isEmpty then ([], [])
      else
        ((List.range merged.nrows).map (fun i =>
            rest.foldl (fun acc s => acc.and (cellEq (ref.getD i Cell.nan) (s.getD i Cell.nan)))
              TB.t),
         (List.range merged.nrows).map (fun i =>
            (ref :: rest).foldl (fun acc s => acc.and (TB.ofBool (s.getD i Cell.nan).isna))
              TB.t))

/-- A `Match_<col>` column: the mapped `equal | all-missing` series; the
empty series produced for fewer than two sources reindexes over the
merged index to an all-NaN column. -/
def matchColCells (merged : DF) (labels : List String) (col : String) : List Cell :=
  let p := compare_column_values (colValuesFor merged labels col) merged
  let combined := List.zipWith TB.or p.1 p.2
  if combined.length == merged.nrows then combined.map mapJaNee
  else List.replicate merged.nrows Cell.nan

/-- Pandas `&` of two boolean series after index alignment: positions
missing on either side are filled False. -/
def alignAndFalse (a b : List TB) : List TB :=
  (List.range (max a.length b.length)).map (fun i => (a.getD i TB.f).and (b.getD i TB.f))

/-- The running `all_cols_match` series of `_add_match_columns`. -/
def allColsMatchSeries (merged : DF) (labels : List String)
    (columns_to_compare : List String) : List TB :=
  columns_to_compare.foldl (fun acc col =>
      let p := compare_column_values (colValuesFor merged labels col) merged
      alignAndFalse acc (List.zipWith TB.or p.1 p.2))
    (if merged.isEmpty then [] else List.replicate merged.nrows TB.t)

/-- The `Match_<col>` columns (none when the merged frame is empty). -/
def matchCols (merged : DF) (labels : List String)
    (columns_to_compare : List String) : ResultCols :=
  if merged.isEmpty then []
  else columns_to_compare.map (fun col => ("Match_" ++ col, matchColCells merged labels col))

/-- `row_full_match = all_present_series & all_cols_match`. -/
def rowFullMatch (merged : DF) (projected : List (String × DF)) (labels : List String)
    (columns_to_compare : List String) : List TB :=
  List.zipWith (fun b tb => (TB.ofBool b).and tb)
    (allPresentSeries merged projected) (allColsMatchSeries merged labels columns_to_compare)

/-- The `BronMatch` cells (empty for an empty merge). -/
def bronMatchCells (merged : DF) (projected : List (String × DF)) (labels : List String)
    (columns_to_compare : List String) : List Cell :=
  if merged.isEmpty then []
  else (rowFullMatch merged projected labels columns_to_compare).map mapJaNee

/-- `int(row_full_match.sum())`: missing entries are skipped. -/
def matchesCount (merged : DF) (projected : List (String × DF)) (labels : List String)
    (columns_to_compare : List String) : Nat :=
  if merged.isEmpty then 0
  else (rowFullMatch merged projected labels columns_to_compare).count TB.t

/-! ### compare.py: column ordering and the top-level pipeline -/

/-- `_get_ordered_columns`: `Key`, every built column starting with
`Aanwezig_`, `Match_Key`, `BronMatch`, the per-source echoed keys, then
per comparison column the per-source values and its match column. -/
def get_ordered_columns (rc : ResultCols) (columns_to_compare : List String)
    (labels : List String) : List String :=
  ["Key"]
  ++ (rc.map Prod.fst).filter (fun c => strStartsWith c "Aanwezig_")
  ++ ["Match_Key", "BronMatch"]
  ++ labels.map (fun s => s ++ "_Key")
  ++ columns_to_compare.flatMap (fun col => labels.map (fun s => s ++ "_" ++ col) ++ ["Match_" ++ col])

/-- `result_df[ordered_cols]`: raises `KeyError` when a requested column
was never built. -/
def order_columns (rc : ResultCols) (ordered : List String) : Except String ResultCols :=
  if ordered.all (fun n => rcHas rc n) then .ok (ordered.map (fun n => (n, rcFind rc n)))
  else .error "KeyError: ordered columns missing"

/-- The result columns before ordering: `Key`, presence flags,
`Match_Key`, per-source keys and values, match flags, `BronMatch`. -/
def buildRC (merged : DF) (projected : List (String × DF)) (labels : List String)
    (columns_to_compare : List String) : ResultCols :=
  [("Key", keyColD merged)]
  ++ presenceCols merged projected
  ++ [("Match_Key", matchKeyCells merged projected)]
  ++ sourceColumnCols merged columns_to_compare labels
  ++ matchCols merged labels columns_to_compare
  ++ [("BronMatch", bronMatchCells merged projected labels columns_to_compare)]

/-- `columns_to_compare` with the key column filtered out (by stripped
comparison). -/
def filteredCols (columns_to_compare : List String) (key_column : String) : List String :=
  columns_to_compare.filter (fun c => pyStrip c ≠ pyStrip key_column)

/-- The compare pipeline up to (and excluding) column ordering: filter
the key column out of the comparison columns, project, merge, and build
the derived columns.  Returns the built columns, the merged frame, the
filtered comparison columns and the match count. -/
def compare_build (source_to_df : List (String × DF)) (columns_to_compare : List String)
    (key_column : String) : Except String (ResultCols × DF × List String × Nat) :=
  match merge_projected_data (project_source_data source_to_df
      (filteredCols columns_to_compare key_column) key_column) with
  | .error e => .error e
  | .ok merged =>
    if presenceColumnsOk (project_source_data source_to_df
        (filteredCols columns_to_compare key_column) key_column) then
      .ok (buildRC merged (project_source_data source_to_df
             (filteredCols columns_to_compare key_column) key_column)
             (source_to_df.map Prod.fst) (filteredCols columns_to_compare key_column),
           merged, filteredCols columns_to_compare key_column,
           matchesCount merged (project_source_data source_to_df
             (filteredCols columns_to_compare key_column) key_column)
             (source_to_df.map Prod.fst) (filteredCols columns_to_compare key_column))
    else .error "KeyError: Key"

/-- `compare_sources`: build, order the columns, and return the result
frame with its match/mismatch counts. -/
def compare_sources (source_to_df : List (String × DF)) (columns_to_compare : List String)
    (key_column : String) : Except String (DF × Nat × Nat) :=
  match compare_build source_to_df columns_to_compare key_column with
  | .error e => .error e
  | .ok (rc, merged, cols, nMatches) =>
    match order_columns rc (get_ordered_columns rc cols (source_to_df.map Prod.fst)) with
    | .error e => .error e
    | .ok sel => .ok (⟨merged.nrows, sel⟩, nMatches, merged.nrows - nMatches)

/-! ### main.py: duplicate detection, dashboard, orchestration -/

/-- One duplicate-key report row. -/
structure DupRecord where
  sheet : String
  bron : String
  key : String
  aantal : Nat
deriving DecidableEq, Repr

/-- One per-sheet summary row. -/
structure Summary where
  sheet : String
  totaal : Nat
  matchesJa : Nat
  mismatchesNee : Nat
deriving DecidableEq, Repr

/-- One dashboard report row. -/
structure DashRecord where
  sheet : String
  bron : String
  rijen : Nat
  kolommen : Nat
  keyKolom : String
  keyNonNull : Nat
  keyNull : Nat
  keyUniek : Nat
  keyDuplicaten : Nat
deriving DecidableEq, Repr

/-- Per-sheet configuration (the `{"columns": ..., "key_column": ...}`
mapping). -/
structure SheetCfg where
  columns : List String
  key_column : String
deriving DecidableEq, Repr

/-- The string values of a series (its non-missing cells, in order). -/
def strVals (l : List Cell) : List String :=
  l.filterMap (fun c => match c with | .str s => some s | _ => none)

/-- First-appearance deduplication. -/
def dedupFirst (l : List String) : List String :=
  l.foldl (fun acc s => if acc.contains s then acc else acc ++ [s]) []

/-- Stable insertion by descending count. -/
def insCountDesc (x : String × Nat) : List (String × Nat) → List (String × Nat)
  | [] => [x]
  | y :: ys => if x.2 ≤ y.2 then y :: insCountDesc x ys else x :: y :: ys

/-- Stable sort by descending count. -/
def sortCountDesc : List (String × Nat) → List (String × Nat)
  | [] => []
  | x :: xs => insCountDesc x (sortCountDesc xs)

/-- `value_counts(dropna=True)`: occurrence counts of the non-missing
values, by descending count. -/
def value_counts (l : List Cell) : List (String × Nat) :=
  sortCountDesc ((dedupFirst (strVals l)).map (fun s => (s, (strVals l).count s)))

/-- `_find_duplicate_keys`: an empty frame or an absent key column yields
no records; otherwise normalize the key column and report every
non-missing normalized value occurring more than once, with its count. -/
def find_duplicate_keys (df : DF) (key_col sheet source : String) : List DupRecord :=
  if df.isEmpty || !df.hasCol key_col then []
  else
    let key_series := (df.getColD key_col).map normalize_key_value
    ((value_counts key_series).filter (fun p => 1 < p.2)).map
      (fun p => ⟨sheet, source, p.1, p.2⟩)

/-- `_find_all_duplicates` across the sources, in source order. -/
def find_all_duplicates (source_to_df : List (String × DF)) (key_column sheet_name : String) :
    List DupRecord :=
  source_to_df.flatMap (fun p => find_duplicate_keys p.2 key_column sheet_name p.1)

/-- `_create_summary`: row total and the counts of "ja"/"nee" in the
`BronMatch` column. -/
def create_summary (sheet_name : String) (result_df : DF) : Summary :=
  ⟨sheet_name, result_df.nrows,
   (result_df.getColD "BronMatch").count (Cell.str "ja"),
   (result_df.getColD "BronMatch").count (Cell.str "nee")⟩

/-- `_compute_key_stats` for one source frame. -/
def compute_key_stats (df : DF) (key_col : String) : Nat × Nat × Nat × Nat :=
  if df.hasCol key_col then
    let s := df.getColD key_col
    let s_nn := s.filter (fun c => !c.isna)
    (s.countP (fun c => !c.isna), s.countP Cell.isna,
     (dedupFirst (strVals s_nn)).length, s_nn.countP (fun v => 1 < s_nn.count v))
  else (0, df.nrows, 0, 0)

/-- `_create_dashboard_records` per source for one sheet. -/
def create_dashboard_records (sheet_name key_column : String)
    (source_to_df : List (String × DF)) : List DashRecord :=
  source_to_df.map (fun p =>
    let st := compute_key_stats p.2 key_column
    ⟨sheet_name, p.1, p.2.nrows, if !p.2.isEmpty then p.2.cols.length else 0,
     key_column, st.1, st.2.1, st.2.2.1, st.2.2.2⟩)

/-- `_process_sheet_configuration`: strip the configured names, dropping
the ones that strip to nothing. -/
def process_sheet_configuration (cfg : SheetCfg) : List String × String :=
  (cfg.columns.filterMap (fun c =>
     let s := pyStrip c
     if s = "" then none else some s),
   pyStrip cfg.key_column)

/-- `process_single_sheet`: compare, then collect duplicates, dashboard
records and the summary.  Any failure in the compare pipeline escapes. -/
def process_single_sheet (sheet_name : String) (cfg : SheetCfg)
    (source_to_df : List (String × DF)) :
    Except String (Summary × List DupRecord × List DashRecord) :=
  let pc := process_sheet_configuration cfg
  match compare_sources source_to_df pc.1 pc.2 with
  | .error e => .error e
  | .ok (result_df, _, _) =>
    .ok (create_summary sheet_name result_df,
         find_all_duplicates source_to_df pc.2 sheet_name,
         create_dashboard_records sheet_name pc.2 source_to_df)

/-- `_create_error_summary`: the zero-valued summary. -/
def create_error_summary (sheet_name : String) : Summary := ⟨sheet_name, 0, 0, 0⟩

/-- `_process_sheet_with_error_handling`: catch any failure and fall back
to the zero summary with empty record lists. -/
def process_sheet_with_error_handling (sheet_name : String) (cfg : SheetCfg)
    (source_to_df : List (String × DF)) :
    Summary × List DupRecord × List DashRecord :=
  match process_single_sheet sheet_name cfg source_to_df with
  | .ok r => r
  | .error _ => (create_error_summary sheet_name, [], [])

/-- `_process_sheet_data_only`: the unguarded second run of the compare
pipeline used to write the data workbook (the write itself is an
external collaborator). -/
def process_sheet_data_only (cfg : SheetCfg) (source_to_df : List (String × DF)) :
    Except String Unit :=
  let pc := process_sheet_configuration cfg
  match compare_sources source_to_df pc.1 pc.2 with
  | .error e => .error e
  | .ok _ => .ok ()

/-- `_process_all_sheets`: per sheet, the guarded run (summary,
duplicates, dashboard) followed by the unguarded data-only run; an
exception from the latter propagates and aborts the remaining sheets
(nothing is returned for the run). -/
def process_all_sheets (load : String → List (String × DF)) :
    List (String × SheetCfg) →
    Except String (List Summary × List DupRecord × List DashRecord)
  | [] => .ok ([], [], [])
  | (sheet_name, cfg) :: rest =>
    let r := process_sheet_with_error_handling sheet_name cfg (load sheet_name)
    match process_sheet_data_only cfg (load sheet_name) with
    | .error e => .error e
    | .ok _ =>
      match process_all_sheets load rest with
      | .error e => .error e
      | .ok (ss, ds, das) => .ok (r.1 :: ss, r.2.1 ++ ds, r.2.2 ++ das)

/-! ### Definitions taken from the specification's words

These are the spec-side counterparts the claims are compared against;
they are deliberately written from the specification text, not from the
source. -/

/-- Modelled from the spec: `Match_<column>` is "yes" iff every source's
value equals the first configured source's value, or every source's
value is missing; otherwise "no".  With a single source the first
condition holds vacuously. -/
def specMatchFlag : List Cell → Cell
  | [] => .str "ja"
  | ref :: rest =>
    if rest.all (fun v => cellEqStrict ref v) || (ref :: rest).all Cell.isna then .str "ja"
    else .str "nee"

/-- Modelled from the spec: the contracted column sequence of the
reconciled table. -/
def specColumnOrder (labels : List String) (columns_to_compare : List String) : List String :=
  ["Key"]
  ++ labels.map (fun s => "Aanwezig_" ++ s)
  ++ ["Match_Key", "BronMatch"]
  ++ labels.map (fun s => s ++ "_Key")
  ++ columns_to_compare.flatMap (fun col =>
       labels.map (fun s => s ++ "_" ++ col) ++ ["Match_" ++ col])

/-- The number of rows of a frame whose `Key` cell is the given string. -/
def countKey (df : DF) (k : String) : Nat := (keyColD df).count (Cell.str k)

/-- Unwrap a compare result, with an empty frame as the (unused) error
default. -/
def okResult (e : Except String (DF × Nat × Nat)) : DF :=
  match e with
  | .ok r => r.1
  | .error _ => ⟨0, []⟩

/-- Unwrap a build result (error default unused under an `isOk`
hypothesis). -/
def okBuild (e : Except String (ResultCols × DF × List String × Nat)) :
    ResultCols × DF × List String × Nat :=
  match e with
  | .ok r => r
  | .error _ => ([], ⟨0, []⟩, [], 0)

/-- Unwrap a merge result (error default unused under an `isOk`
hypothesis). -/
def okMerge (e : Except String DF) : DF :=
  match e with
  | .ok df => df
  | .error _ => ⟨0, []⟩

/-- The match count of a compare result. -/
def okMatches (e : Except String (DF × Nat × Nat)) : Nat :=
  match e with
  | .ok r => r.2.1
  | .error _ => 0

/-- The mismatch count of a compare result. -/
def okMismatches (e : Except String (DF × Nat × Nat)) : Nat :=
  match e with
  | .ok r => r.2.2
  | .error _ => 0

/-- The `Key` column of an outer join, expressed over the two input key
columns: every left key repeated once per matching right key (or once
when unmatched), then the unmatched right keys. -/
def keyExpansion (lk rk : List Cell) : List Cell :=
  lk.flatMap (fun a =>
    if rk.countP (fun b => keyEq a b) = 0 then [a]
    else List.replicate (rk.countP (fun b => keyEq a b)) a)
  ++ rk.filter (fun b => lk.all (fun a => !keyEq a b))

/-- The derived flag columns of a reconciled table. -/
def flagColumnNames (labels : List String) (columns_to_compare : List String) : List String :=
  labels.map (fun s => "Aanwezig_" ++ s) ++ ["Match_Key", "BronMatch"]
  ++ columns_to_compare.map (fun col => "Match_" ++ col)

/-! ### Concrete example tables -/

/-- A two-row source with key column `id` and value column `val`. -/
def exDF1 : DF := ⟨2, [("id", [.str "1", .str "2"]), ("val", [.str "x", .str "y"])]⟩

/-- A source agreeing with `exDF1` on key "1" and holding key "3". -/
def exDF2 : DF := ⟨2, [("id", [.str "1", .str "3"]), ("val", [.str "x", .str "z"])]⟩

/-- A source whose key column holds the same normalized key twice. -/
def exDupDF : DF := ⟨2, [("id", [.str "1", .str "1"]), ("val", [.str "x", .str "y"])]⟩

/-- The sheet configuration used by the orchestrator examples. -/
def exCfg : SheetCfg := ⟨["val"], "id"⟩

/-- A loader: sheet `S1` has one source whose table is empty (a failed
read), every other sheet has one well-formed source. -/
def exLoad : String → List (String × DF) :=
  fun n => if n = "S1" then [("A", ⟨0, []⟩)] else [("A", exDF1)]

/-! ## Theorems -/

/-- C7: the claim asserts `normalize("12345") = "1234500"`; in fact the
separator-stripping normalizer leaves `"12345"` unchanged, so the three
literals of the claim do not all normalize to `"1234500"`. -/
theorem C7_literal_counterexample :
    normalize_key_value (Cell.str "12345") ≠ Cell.str "1234500" := by decide

/-- C7 (amended): `normalize("12,345.00") = normalize("12345.00") =
"1234500"`, but `normalize("12345") = "12345"`; `normalize(" 123 ") =
"123"`; a non-missing empty string stays `""`; missing stays missing. -/
theorem C7_normalize_literals_amended :
    normalize_key_value (Cell.str "12,345.00") = Cell.str "1234500" ∧
    normalize_key_value (Cell.str "12345.00") = Cell.str "1234500" ∧
    normalize_key_value (Cell.str "12345") = Cell.str "12345" ∧
    normalize_key_value (Cell.str " 123 ") = Cell.str "123" ∧
    normalize_key_value (Cell.str "") = Cell.str "" ∧
    normalize_key_value Cell.nan = Cell.na ∧
    normalize_key_value Cell.na = Cell.na := by decide

/-- C2: contrary to the claim, `compare_sources` raises on empty input
whenever a comparison column is configured.  A single all-empty source
projects to a frame without the normalized `Key` column, so the presence
derivation raises `KeyError: 'Key'`; with zero sources the final column
selection requests the never-built `Match_<col>` columns and raises. -/
theorem C2_empty_input_raises :
    compare_sources [("A", (⟨0, []⟩ : DF))] ["val"] "id" = .error "KeyError: Key" ∧
    compare_sources [] ["val"] "id" = .error "KeyError: ordered columns missing" ∧
    compare_sources [] [] "id" =
      .ok (⟨0, [("Key", []), ("Match_Key", []), ("BronMatch", [])]⟩, 0, 0) :=
  ⟨rfl, rfl, rfl⟩

/-- C9: the guarded per-sheet run does produce the zero-valued summary
for a failing sheet, but `_process_all_sheets` re-runs the same compare
pipeline unguarded (`_process_sheet_data_only`), so a deterministic
failure on sheet `S1` aborts the whole run and sheet `S2` is never
processed — even though `S2` alone processes fine. -/
theorem C9_sheet_failure_aborts_run :
    process_sheet_with_error_handling "S1" exCfg (exLoad "S1") =
      (create_error_summary "S1", [], []) ∧
    process_all_sheets exLoad [("S1", exCfg), ("S2", exCfg)] = .error "KeyError: Key" ∧
    (process_all_sheets exLoad [("S2", exCfg)]).isOk = true :=
  ⟨rfl, rfl, rfl⟩

/-- C1: with a single configured source, condition (a) of the claim
holds vacuously (`specMatchFlag` says "ja"), yet the code's
`Match_val` cell is the missing sentinel: `_compare_column_values`
returns empty series for fewer than two sources and the reindexing fills
the column with NaN. -/
theorem C1_single_source_counterexample :
    (compare_sources [("A", exDF1)] ["val"] "id").isOk = true ∧
    (okResult (compare_sources [("A", exDF1)] ["val"] "id")).cell "Match_val" 0 = Cell.nan ∧
    specMatchFlag [(okResult (compare_sources [("A", exDF1)] ["val"] "id")).cell "A_val" 0] =
      Cell.str "ja" := by decide

/-- C10: the same single-source run shows a derived flag cell that is
the missing sentinel rather than "ja"/"nee". -/
theorem C10_flag_counterexample :
    (compare_sources [("A", exDF1)] ["val"] "id").isOk = true ∧
    ¬((okResult (compare_sources [("A", exDF1)] ["val"] "id")).cell "Match_val" 0 = Cell.str "ja" ∨
      (okResult (compare_sources [("A", exDF1)] ["val"] "id")).cell "Match_val" 0 = Cell.str "nee") := by
  decide

/-- C4: a source whose projected table holds normalized key "1" twice
yields a merged table in which key "1" appears twice, not once. -/
theorem C4_duplicate_key_counterexample :
    countKey (okMerge (merge_projected_data (project_source_data [("A", exDupDF)] ["val"] "id")))
      "1" = 2 := by decide

/-- C5: a successful pass whose source label starts with `Aanwezig`
produces a column sequence different from the contracted one: the
prefix-based filter in `_get_ordered_columns` also captures the
per-source columns. -/
theorem C5_column_order_counterexample :
    (compare_sources [("Aanwezig_B", exDF1)] ["val"] "id").isOk = true ∧
    (okResult (compare_sources [("Aanwezig_B", exDF1)] ["val"] "id")).header ≠
      specColumnOrder ["Aanwezig_B"] ["val"] := by decide

/-! ### Normalizer lemmas (towards C6) -/

theorem dropWhile_eq_self_of_head {α : Type} (p : α → Bool) :
    ∀ (l : List α), (∀ c ∈ l.head?, p c = false) → l.dropWhile p = l
  | [], _ => rfl
  | a :: t, h => by
    have ha : p a = false := h a rfl
    simp [List.dropWhile_cons, ha]

theorem head?_dropWhile_false {α : Type} (p : α → Bool) (l : List α) :
    ∀ c ∈ (l.dropWhile p).head?, p c = false := by
  induction l with
  | nil => intro c hc; simp [List.dropWhile] at hc
  | cons a t ih =>
    intro c hc
    by_cases ha : p a
    · rw [List.dropWhile_cons_of_pos ha] at hc
      exact ih c hc
    · rw [List.dropWhile_cons_of_neg ha] at hc
      have hac : a = c := by simpa using hc
      subst hac
      simpa using ha

theorem stripChars_head (l : List Char) :
    ∀ c ∈ (stripChars l).head?, isPyWs c = false := by
  intro c hc
  cases hsc : stripChars l with
  | nil => rw [hsc] at hc; simp at hc
  | cons a t =>
    rw [hsc] at hc
    have hac : a = c := by simpa using hc
    subst hac
    have hpre : stripChars l <+: l.dropWhile isPyWs := by
      unfold stripChars
      exact ⟨(((l.dropWhile isPyWs).reverse.takeWhile isPyWs)).reverse, by
        rw [← List.reverse_append, List.takeWhile_append_dropWhile, List.reverse_reverse]⟩
    obtain ⟨u, hu⟩ := hpre
    rw [hsc] at hu
    exact head?_dropWhile_false isPyWs l a (by rw [← hu]; rfl)

theorem stripChars_reverse_head (l : List Char) :
    ∀ c ∈ (stripChars l).reverse.head?, isPyWs c = false := by
  intro c hc
  unfold stripChars at hc
  rw [List.reverse_reverse] at hc
  exact head?_dropWhile_false isPyWs _ c hc

theorem stripChars_eq_self (l : List Char)
    (h1 : ∀ c ∈ l.head?, isPyWs c = false)
    (h2 : ∀ c ∈ l.reverse.head?, isPyWs c = false) :
    stripChars l = l := by
  unfold stripChars
  rw [dropWhile_eq_self_of_head _ _ h1, dropWhile_eq_self_of_head _ _ h2,
    List.reverse_reverse]

theorem ws_not_digit {c : Char} (h : isPyWs c = true) : c.isDigit = false := by
  simp only [isPyWs, Bool.or_eq_true, decide_eq_true_eq] at h
  rcases h with ((((rfl | rfl) | rfl) | rfl) | rfl) | rfl <;> decide

theorem digit_not_ws {c : Char} (h : c.isDigit = true) : isPyWs c = false := by
  cases hws : isPyWs c with
  | false => rfl
  | true => rw [ws_not_digit hws] at h; cases h

theorem digit_not_sep {c : Char} (h : c.isDigit = true) : isSepChar c = false := by
  cases hs : isSepChar c with
  | false => rfl
  | true =>
    simp only [isSepChar, Bool.or_eq_true, decide_eq_true_eq] at hs
    rcases hs with rfl | rfl <;> exact absurd h (by decide)

theorem digit_ne_space {c : Char} (h : c.isDigit = true) : c ≠ ' ' := by
  intro hc; subst hc; cases h

/-- The branch shape of the normalizer on a non-missing cell. -/
theorem normalize_str_eq (v : String) :
    normalize_key_value (.str v) =
      if (stripChars v.data).isEmpty then .str (pyStrip v)
      else if is_numeric_with_separators (removeSpaces (pyStrip v)) then
        .str (stripSeps (removeSpaces (pyStrip v)))
      else .str (removeSpaces (pyStrip v)) := rfl

/-- On a string that is already outer-stripped and space-free, the
normalizer only applies the numeric separator-stripping branch. -/
theorem normalize_fixes (r : String)
    (h1 : ∀ c ∈ r.data.head?, isPyWs c = false)
    (h2 : ∀ c ∈ r.data.reverse.head?, isPyWs c = false)
    (hsp : r.data.filter (fun c => decide (c ≠ ' ')) = r.data) :
    normalize_key_value (.str r) =
      if is_numeric_with_separators r then .str (stripSeps r) else .str r := by
  have hstrip : stripChars r.data = r.data := stripChars_eq_self _ h1 h2
  have hps : pyStrip r = r := congrArg String.mk hstrip
  have hrs : removeSpaces r = r := congrArg String.mk hsp
  rw [normalize_str_eq, hstrip, hps, hrs]
  by_cases he : r.data.isEmpty
  · have hd : r.data = [] := List.isEmpty_iff.mp he
    have hnum : is_numeric_with_separators r = false := by
      unfold is_numeric_with_separators; rw [hd]; rfl
    rw [if_pos he, hnum]
    simp
  · rw [if_neg he]

/-- The normalizer fixes any nonempty all-digit string. -/
theorem normalize_all_digits (r : String)
    (hd : ∀ c ∈ r.data, c.isDigit = true) :
    normalize_key_value (.str r) = .str r := by
  have h1 : ∀ c ∈ r.data.head?, isPyWs c = false :=
    fun c hc => digit_not_ws (hd c (List.mem_of_mem_head? hc))
  have h2 : ∀ c ∈ r.data.reverse.head?, isPyWs c = false :=
    fun c hc => digit_not_ws (hd c (by
      have := List.mem_of_mem_head? hc
      exact (List.mem_reverse).mp this))
  have hsp : r.data.filter (fun c => decide (c ≠ ' ')) = r.data :=
    List.filter_eq_self.mpr (fun a ha => by
      simpa using digit_ne_space (hd a ha))
  rw [normalize_fixes r h1 h2 hsp]
  have hss : stripSeps r = r := congrArg String.mk
    (List.filter_eq_self.mpr (fun a ha => by rw [digit_not_sep (hd a ha)]; rfl))
  rw [hss]
  split <;> rfl

/-- Two strings with the same character data are equal. -/
theorem str_ext {a b : String} (h : a.data = b.data) : a = b := by
  cases a; cases b; cases h; rfl

/-- C6: key normalization is idempotent: normalizing a value a second
time changes nothing, for missing and non-missing inputs alike. -/
theorem C6_normalize_idempotent (v : Cell) :
    normalize_key_value (normalize_key_value v) = normalize_key_value v := by
  cases v with
  | nan => rfl
  | na => rfl
  | str v =>
    rw [normalize_str_eq v]
    by_cases he : (stripChars v.data).isEmpty
    · rw [if_pos he]
      have hd : (pyStrip v).data = [] := List.isEmpty_iff.mp he
      rw [normalize_str_eq (pyStrip v)]
      have hsc : stripChars (pyStrip v).data = [] := by rw [hd]; rfl
      rw [hsc]
      show Cell.str (pyStrip (pyStrip v)) = Cell.str (pyStrip v)
      exact congrArg Cell.str (str_ext (by
        show stripChars (pyStrip v).data = (pyStrip v).data
        rw [hsc, hd]))
    · have h1s : ∀ c ∈ (pyStrip v).data.head?, isPyWs c = false := stripChars_head v.data
      have h2s : ∀ c ∈ (pyStrip v).data.reverse.head?, isPyWs c = false :=
        stripChars_reverse_head v.data
      by_cases hnum : is_numeric_with_separators (removeSpaces (pyStrip v))
      · rw [if_neg he, if_pos hnum]
        apply normalize_all_digits
        intro c hc
        have hc2 := List.mem_filter.mp hc
        obtain ⟨hmem, hnsep⟩ := hc2
        cases hdata : (removeSpaces (pyStrip v)).data with
        | nil => rw [hdata] at hmem; cases hmem
        | cons d rest =>
          unfold is_numeric_with_separators at hnum
          rw [hdata] at hnum hmem
          have hnum2 : d.isDigit = true ∧ ∀ x ∈ rest, x.isDigit = true ∨ isSepChar x = true := by
            simpa [is_numeric_chars, List.all_eq_true] using hnum
          obtain ⟨hd1, hall⟩ := hnum2
          rcases List.mem_cons.mp hmem with rfl | hmr
          · exact hd1
          · rcases hall c hmr with hcd | hcs
            · exact hcd
            · rw [hcs] at hnsep; simp at hnsep
      · rw [if_neg he, if_neg hnum]
        have h1r : ∀ c ∈ (removeSpaces (pyStrip v)).data.head?, isPyWs c = false := by
          cases hpd : (pyStrip v).data with
          | nil =>
            intro c hc
            have : (removeSpaces (pyStrip v)).data = [] := by
              show (pyStrip v).data.filter _ = [];  rw [hpd]; rfl
            rw [this] at hc; cases hc
          | cons a t =>
            intro c hc
            have hwa : isPyWs a = false := h1s a (by rw [hpd]; rfl)
            have hne : a ≠ ' ' := by
              intro h; rw [h] at hwa; exact absurd hwa (by decide)
            have : (removeSpaces (pyStrip v)).data =
                a :: t.filter (fun c => decide (c ≠ ' ')) := by
              show (pyStrip v).data.filter _ = _
              rw [hpd, List.filter_cons_of_pos (by simpa using hne)]
            rw [this] at hc
            have hac : a = c := by simpa using hc
            subst hac
            exact hwa
        have h2r : ∀ c ∈ (removeSpaces (pyStrip v)).data.reverse.head?, isPyWs c = false := by
          have hrev : (removeSpaces (pyStrip v)).data.reverse =
              (pyStrip v).data.reverse.filter (fun c => decide (c ≠ ' ')) := by
            show ((pyStrip v).data.filter _).reverse = _
            rw [List.filter_reverse]
          rw [hrev]
          cases hpd : (pyStrip v).data.reverse with
          | nil => intro c hc; simp at hc
          | cons b t2 =>
            intro c hc
            have hwb : isPyWs b = false := h2s b (by rw [hpd]; rfl)
            have hne : b ≠ ' ' := by
              intro h; rw [h] at hwb; exact absurd hwb (by decide)
            rw [List.filter_cons_of_pos (by simpa using hne)] at hc
            have hbc : b = c := by simpa using hc
            subst hbc
            exact hwb
        have hspr : (removeSpaces (pyStrip v)).data.filter (fun c => decide (c ≠ ' ')) =
            (removeSpaces (pyStrip v)).data :=
          List.filter_eq_self.mpr (fun a ha => (List.mem_filter.mp ha).2)
        rw [normalize_fixes _ h1r h2r hspr, if_neg hnum]

/-! ### Column access lemmas -/

theorem getColD_eq_nil_of_not_hasCol (df : DF) (n : String) (h : df.hasCol n = false) :
    df.getColD n = [] := by
  unfold DF.getColD DF.getCol?
  have hf : df.cols.find? (fun c => c.1 == n) = none := by
    rw [List.find?_eq_none]
    intro a ha
    have := (List.any_eq_false).mp h a ha
    simpa using this
  rw [hf]
  rfl

theorem length_getColD_of_WF (df : DF) (n : String) (hwf : df.WFb = true)
    (h : df.hasCol n = true) : (df.getColD n).length = df.nrows := by
  unfold DF.getColD DF.getCol?
  cases hf : df.cols.find? (fun c => c.1 == n) with
  | none =>
    rw [List.find?_eq_none] at hf
    unfold DF.hasCol at h
    obtain ⟨a, ha, hpa⟩ := List.any_eq_true.mp h
    exact absurd hpa (by simpa using hf a ha)
  | some a =>
    have hmem : a ∈ df.cols := List.mem_of_find?_eq_some hf
    unfold DF.WFb at hwf
    have hlen := List.all_eq_true.mp hwf a hmem
    simpa using hlen

/-! ### value_counts lemmas (towards C8) -/

theorem insCountDesc_perm (x : String × Nat) (l : List (String × Nat)) :
    List.Perm (insCountDesc x l) (x :: l) := by
  induction l with
  | nil => exact List.Perm.refl _
  | cons y ys ih =>
    unfold insCountDesc
    by_cases h : x.2 ≤ y.2
    · rw [if_pos h]
      exact (ih.cons y).trans (List.Perm.swap x y ys)
    · rw [if_neg h]

theorem sortCountDesc_perm (l : List (String × Nat)) : List.Perm (sortCountDesc l) l := by
  induction l with
  | nil => exact List.Perm.refl _
  | cons x xs ih => exact (insCountDesc_perm x (sortCountDesc xs)).trans (ih.cons x)

theorem dedupFirst_go_mem (l : List String) :
    ∀ (acc : List String) (x : String),
      (x ∈ l.foldl (fun acc s => if acc.contains s then acc else acc ++ [s]) acc ↔
        x ∈ acc ∨ x ∈ l) := by
  induction l with
  | nil => intro acc x; simp
  | cons s t ih =>
    intro acc x
    rw [List.foldl_cons]
    by_cases hc : acc.contains s
    · rw [if_pos hc, ih]
      constructor
      · rintro (hx | hx)
        · exact Or.inl hx
        · exact Or.inr (List.mem_cons_of_mem s hx)
      · rintro (hx | hx)
        · exact Or.inl hx
        · rcases List.mem_cons.mp hx with rfl | hx
          · exact Or.inl (by simpa using hc)
          · exact Or.inr hx
    · rw [if_neg hc, ih]
      constructor
      · rintro (hx | hx)
        · rcases List.mem_append.mp hx with hx | hx
          · exact Or.inl hx
          · exact Or.inr (by simpa using List.mem_cons.mpr (Or.inl (by simpa using hx)))
        · exact Or.inr (List.mem_cons_of_mem s hx)
      · rintro (hx | hx)
        · exact Or.inl (List.mem_append.mpr (Or.inl hx))
        · rcases List.mem_cons.mp hx with rfl | hx
          · exact Or.inl (List.mem_append.mpr (Or.inr (by simp)))
          · exact Or.inr hx

theorem dedupFirst_mem (l : List String) (x : String) :
    x ∈ dedupFirst l ↔ x ∈ l := by
  unfold dedupFirst
  rw [dedupFirst_go_mem]
  simp

theorem dedupFirst_go_nodup (l : List String) :
    ∀ (acc : List String), acc.Nodup →
      (l.foldl (fun acc s => if acc.contains s then acc else acc ++ [s]) acc).Nodup := by
  induction l with
  | nil => intro acc h; simpa using h
  | cons s t ih =>
    intro acc h
    rw [List.foldl_cons]
    by_cases hc : acc.contains s
    · rw [if_pos hc]; exact ih acc h
    · rw [if_neg hc]
      refine ih _ ?_
      refine List.Nodup.append h (List.nodup_singleton s) ?_
      intro a ha hs
      obtain rfl : a = s := by simpa using hs
      exact absurd (by simpa using ha : acc.contains a = true) (by simpa using hc)

theorem dedupFirst_nodup (l : List String) : (dedupFirst l).Nodup :=
  dedupFirst_go_nodup l [] List.nodup_nil

theorem value_counts_fst_nodup (l : List Cell) :
    ((value_counts l).map Prod.fst).Nodup := by
  unfold value_counts
  have hperm := (sortCountDesc_perm
    ((dedupFirst (strVals l)).map (fun s => (s, (strVals l).count s)))).map Prod.fst
  rw [List.Perm.nodup_iff hperm]
  rw [List.map_map]
  have hid : (Prod.fst ∘ fun s : String => (s, (strVals l).count s)) = fun s => s := by
    funext s; rfl
  rw [hid]
  simpa using dedupFirst_nodup (strVals l)

theorem value_counts_mem (l : List Cell) (p : String × Nat) :
    p ∈ value_counts l ↔ p.1 ∈ strVals l ∧ p.2 = (strVals l).count p.1 := by
  unfold value_counts
  rw [(sortCountDesc_perm _).mem_iff, List.mem_map]
  constructor
  · rintro ⟨s, hs, rfl⟩
    exact ⟨(dedupFirst_mem _ s).mp hs, rfl⟩
  · rintro ⟨h1, h2⟩
    exact ⟨p.1, (dedupFirst_mem _ p.1).mpr h1, by rw [← h2]⟩

theorem strVals_count (l : List Cell) (s : String) :
    (strVals l).count s = l.count (Cell.str s) := by
  induction l with
  | nil => rfl
  | cons c t ih =>
    cases c with
    | str a =>
      show (a :: strVals t).count s = (Cell.str a :: t).count (Cell.str s)
      simp [List.count_cons, ih, Cell.str.injEq]
    | nan =>
      show (strVals t).count s = (Cell.nan :: t).count (Cell.str s)
      rw [ih, List.count_cons_of_ne (by simp)]
    | na =>
      show (strVals t).count s = (Cell.na :: t).count (Cell.str s)
      rw [ih, List.count_cons_of_ne (by simp)]

theorem find_duplicate_keys_eq (df : DF) (key_col sheet source : String)
    (hg : (df.isEmpty || !df.hasCol key_col) = false) :
    find_duplicate_keys df key_col sheet source =
      ((value_counts ((df.getColD key_col).map normalize_key_value)).filter
          (fun p => 1 < p.2)).map
        (fun p => (⟨sheet, source, p.1, p.2⟩ : DupRecord)) := by
  unfold find_duplicate_keys
  rw [if_neg (by simp [hg])]

theorem getColD_eq_nil_of_guard (df : DF) (key_col : String) (hwf : df.WFb = true)
    (hg : (df.isEmpty || !df.hasCol key_col) = true) : df.getColD key_col = [] := by
  rcases Bool.or_eq_true_iff.mp hg with he | hnc
  · rcases Bool.or_eq_true_iff.mp he with h0 | hce
    · by_cases hc : df.hasCol key_col
      · have hlen := length_getColD_of_WF df key_col hwf hc
        have h0' : df.nrows = 0 := by simpa using h0
        rw [h0'] at hlen
        exact List.eq_nil_of_length_eq_zero hlen
      · exact getColD_eq_nil_of_not_hasCol df key_col (by simpa using hc)
    · refine getColD_eq_nil_of_not_hasCol df key_col ?_
      unfold DF.hasCol
      rw [List.isEmpty_iff.mp hce]
      rfl
  · exact getColD_eq_nil_of_not_hasCol df key_col (by simpa using hnc)

/-- C8: duplicate detection yields exactly one record per non-missing
normalized key value occurring more than once in a source's table,
carrying the sheet name, the source label, the normalized key and its
occurrence count; rows with a missing normalized key are never counted;
and the normalized-keys-[1,1,2] example yields exactly the single record
(S, A, "1", 2). -/
theorem C8_duplicate_records (df : DF) (key_col sheet source : String)
    (hwf : df.WFb = true) :
    (((find_duplicate_keys df key_col sheet source).map (fun r => r.key)).Nodup ∧
     (∀ kv : String,
        (∃ r ∈ find_duplicate_keys df key_col sheet source, r.key = kv) ↔
          2 ≤ ((df.getColD key_col).map normalize_key_value).count (Cell.str kv)) ∧
     (∀ r ∈ find_duplicate_keys df key_col sheet source,
        r.sheet = sheet ∧ r.bron = source ∧
          r.aantal =
            ((df.getColD key_col).map normalize_key_value).count (Cell.str r.key))) ∧
    find_duplicate_keys ⟨3, [("k", [.str "1", .str "1", .str "2"])]⟩ "k" "S" "A" =
      [⟨"S", "A", "1", 2⟩] := by
  refine ⟨?_, by decide⟩
  by_cases hg : (df.isEmpty || !df.hasCol key_col) = true
  · have hrec : find_duplicate_keys df key_col sheet source = [] := by
      unfold find_duplicate_keys
      rw [if_pos hg]
    have hnil := getColD_eq_nil_of_guard df key_col hwf hg
    rw [hrec, hnil]
    refine ⟨by simp, ?_, by simp⟩
    intro kv
    constructor
    · rintro ⟨r, hr, _⟩; cases hr
    · intro h2; simp at h2
  · have hg' : (df.isEmpty || !df.hasCol key_col) = false := by
      cases h : (df.isEmpty || !df.hasCol key_col) with
      | false => rfl
      | true => exact absurd h hg
    rw [find_duplicate_keys_eq df key_col sheet source hg']
    refine ⟨?_, ?_, ?_⟩
    · have h1 : (((value_counts ((df.getColD key_col).map normalize_key_value)).filter
          (fun p => 1 < p.2)).map Prod.fst).Sublist
          ((value_counts ((df.getColD key_col).map normalize_key_value)).map Prod.fst) :=
        (List.filter_sublist _).map _
      have h3 := (value_counts_fst_nodup
        ((df.getColD key_col).map normalize_key_value)).sublist h1
      rw [List.map_map]
      exact h3
    · intro kv
      constructor
      · rintro ⟨r, hr, hk⟩
        obtain ⟨p, hp, rfl⟩ := List.mem_map.mp hr
        obtain ⟨hpv, hpgt⟩ := List.mem_filter.mp hp
        obtain ⟨hmem, hcnt⟩ := (value_counts_mem _ p).mp hpv
        have hgt : 1 < p.2 := by simpa using hpgt
        have hkk : p.1 = kv := hk
        rw [← hkk, ← strVals_count]
        omega
      · intro h2
        have hvc : 2 ≤ (strVals ((df.getColD key_col).map normalize_key_value)).count kv := by
          rw [strVals_count]; exact h2
        have hmem : kv ∈ strVals ((df.getColD key_col).map normalize_key_value) := by
          have : 0 < (strVals ((df.getColD key_col).map normalize_key_value)).count kv := by
            omega
          exact List.count_pos_iff.mp this
        refine ⟨⟨sheet, source, kv,
          (strVals ((df.getColD key_col).map normalize_key_value)).count kv⟩, ?_, rfl⟩
        refine List.mem_map.mpr ⟨(kv,
          (strVals ((df.getColD key_col).map normalize_key_value)).count kv), ?_, rfl⟩
        refine List.mem_filter.mpr ⟨(value_counts_mem _ _).mpr ⟨hmem, rfl⟩, by
          simp only [decide_eq_true_eq]; omega⟩
    · intro r hr
      obtain ⟨p, hp, rfl⟩ := List.mem_map.mp hr
      obtain ⟨hpv, _⟩ := List.mem_filter.mp hp
      obtain ⟨hmem, hcnt⟩ := (value_counts_mem _ p).mp hpv
      refine ⟨rfl, rfl, ?_⟩
      show p.2 = _
      rw [hcnt, strVals_count]

/-- C8 witness: the statement instantiated at the duplicate-key table. -/
theorem C8_duplicate_records_witness :
    exDupDF.WFb = true ∧
    ((((find_duplicate_keys exDupDF "id" "S" "A").map (fun r => r.key)).Nodup ∧
     (∀ kv : String,
        (∃ r ∈ find_duplicate_keys exDupDF "id" "S" "A", r.key = kv) ↔
          2 ≤ ((exDupDF.getColD "id").map normalize_key_value).count (Cell.str kv)) ∧
     (∀ r ∈ find_duplicate_keys exDupDF "id" "S" "A",
        r.sheet = "S" ∧ r.bron = "A" ∧
          r.aantal =
            ((exDupDF.getColD "id").map normalize_key_value).count (Cell.str r.key))) ∧
    find_duplicate_keys ⟨3, [("k", [.str "1", .str "1", .str "2"])]⟩ "k" "S" "A" =
      [⟨"S", "A", "1", 2⟩]) :=
  ⟨by decide, C8_duplicate_records exDupDF "id" "S" "A" (by decide)⟩

/-! ### Generic access lemmas for built result columns -/

theorem rcFind_append_right (l1 l2 : ResultCols) (n : String)
    (h : ∀ e ∈ l1, e.1 ≠ n) : rcFind (l1 ++ l2) n = rcFind l2 n := by
  unfold rcFind
  rw [List.find?_append]
  have : l1.find? (fun c => c.1 == n) = none := by
    rw [List.find?_eq_none]
    intro e he
    simpa using h e he
  rw [this]
  rfl

theorem rcFind_of_nodup (rc : ResultCols) (n : String) (v : List Cell)
    (hnd : (rc.map Prod.fst).Nodup) (hmem : (n, v) ∈ rc) : rcFind rc n = v := by
  induction rc with
  | nil => cases hmem
  | cons e t ih =>
    rcases List.mem_cons.mp hmem with rfl | hmem2
    · unfold rcFind
      rw [List.find?_cons_of_pos _ (by simp)]
      rfl
    · have hne : e.1 ≠ n := by
        intro he
        have : n ∈ t.map Prod.fst := List.mem_map.mpr ⟨(n, v), hmem2, rfl⟩
        rw [List.map_cons] at hnd
        rw [← he] at this
        exact (List.nodup_cons.mp hnd).1 this
      unfold rcFind
      rw [List.find?_cons_of_neg _ (by simpa using hne)]
      exact ih (List.nodup_cons.mp (by rwa [List.map_cons] at hnd)).2 hmem2

theorem rcHas_of_mem (rc : ResultCols) (e : String × List Cell) (hmem : e ∈ rc) :
    rcHas rc e.1 = true := by
  unfold rcHas
  rw [List.any_eq_true]
  exact ⟨e, hmem, by simp⟩

/-- Looking up a name in the column-ordered selection gives the built
column, for any name among the requested ones. -/
theorem getColD_selected (m : Nat) (rc : ResultCols) (ordered : List String) (n : String)
    (hmem : n ∈ ordered) :
    (DF.mk m (ordered.map (fun nn => (nn, rcFind rc nn)))).getColD n = rcFind rc n := by
  unfold DF.getColD DF.getCol?
  induction ordered with
  | nil => cases hmem
  | cons a t ih =>
    by_cases han : a = n
    · subst han
      rw [List.map_cons]
      rw [List.find?_cons_of_pos _ (by simp)]
      rfl
    · rw [List.map_cons, List.find?_cons_of_neg _ (by simpa using han)]
      exact ih (by
        rcases List.mem_cons.mp hmem with rfl | h2
        · exact absurd rfl han
        · exact h2)

theorem getD_map {α β : Type} (f : α → β) (l : List α) (i : Nat) (d : α) (d' : β)
    (hi : i < l.length) : (l.map f).getD i d' = f (l.getD i d) := by
  induction l generalizing i with
  | nil => cases hi
  | cons a t ih =>
    cases i with
    | zero => rfl
    | succ j => exact ih j (Nat.lt_of_succ_lt_succ hi)

theorem getD_range (n i : Nat) (hi : i < n) : (List.range n).getD i 0 = i := by
  rw [List.getD_eq_getElem?_getD, List.getElem?_range hi]
  rfl

theorem getD_range_map {β : Type} (g : Nat → β) (n i : Nat) (d : β) (hi : i < n) :
    ((List.range n).map g).getD i d = g i := by
  rw [getD_map g _ i 0 d (by simpa using hi), getD_range n i hi]

/-! ### TB algebra -/

theorem TB.ofBool_and (a b : Bool) : (TB.ofBool a).and (TB.ofBool b) = TB.ofBool (a && b) := by
  cases a <;> cases b <;> rfl

theorem TB.ofBool_or (a b : Bool) : (TB.ofBool a).or (TB.ofBool b) = TB.ofBool (a || b) := by
  cases a <;> cases b <;> rfl

theorem mapJaNee_ofBool (b : Bool) : mapJaNee (TB.ofBool b) = boolJaNee b := by
  cases b <;> rfl

theorem boolJaNee_eq_ja (b : Bool) : boolJaNee b = Cell.str "ja" ↔ b = true := by
  cases b <;> simp [boolJaNee]

theorem cellEq_eq_strict (x y : Cell) (hx : x ≠ Cell.na) (hy : y ≠ Cell.na) :
    cellEq x y = TB.ofBool (cellEqStrict x y) := by
  cases x <;> cases y <;> first
    | rfl
    | exact absurd rfl hx
    | exact absurd rfl hy

theorem foldl_and_ofBool {α : Type} (f : α → Bool) (vals : List α) (init : Bool) :
    vals.foldl (fun acc s => acc.and (TB.ofBool (f s))) (TB.ofBool init) =
      TB.ofBool (init && vals.all f) := by
  induction vals generalizing init with
  | nil => simp
  | cons x xs ih =>
    rw [List.foldl_cons, TB.ofBool_and, ih, List.all_cons, Bool.and_assoc]

theorem foldl_congr_mem {α β : Type} (l : List α) (f g : β → α → β) (init : β)
    (h : ∀ acc x, x ∈ l → f acc x = g acc x) : l.foldl f init = l.foldl g init := by
  induction l generalizing init with
  | nil => rfl
  | cons x xs ih =>
    rw [List.foldl_cons, List.foldl_cons, h init x (by simp)]
    exact ih _ (fun acc y hy => h acc y (List.mem_cons_of_mem x hy))

/-! ### Well-formedness preservation -/

theorem setCol_WF (df : DF) (n : String) (col : List Cell) (hwf : df.WFb = true)
    (hlen : col.length = df.nrows) : (df.setCol n col).WFb = true := by
  unfold DF.setCol
  by_cases h : df.hasCol n
  · rw [if_pos h]
    unfold DF.WFb at hwf ⊢
    rw [List.all_eq_true] at hwf ⊢
    intro c hc
    obtain ⟨c0, hc0, hcc⟩ := List.mem_map.mp hc
    by_cases he : c0.1 = n
    · rw [if_pos (by simpa using he)] at hcc
      rw [← hcc]
      simpa using hlen
    · rw [if_neg (by simpa using he)] at hcc
      rw [← hcc]
      exact hwf c0 hc0
  · rw [if_neg h]
    unfold DF.WFb at hwf ⊢
    rw [List.all_eq_true] at hwf ⊢
    intro c hc
    rcases List.mem_append.mp hc with hc | hc
    · exact hwf c hc
    · obtain rfl : c = (n, col) := by simpa using hc
      simpa using hlen

theorem setCol_nrows (df : DF) (n : String) (col : List Cell) :
    (df.setCol n col).nrows = df.nrows := by
  unfold DF.setCol
  by_cases h : df.hasCol n
  · rw [if_pos h]
  · rw [if_neg h]

theorem selectCols_WF (df : DF) (names : List String) (hwf : df.WFb = true)
    (hall : ∀ n ∈ names, df.hasCol n = true) : (df.selectCols names).WFb = true := by
  unfold DF.selectCols DF.WFb
  rw [List.all_eq_true]
  intro c hc
  obtain ⟨n, hn, rfl⟩ := List.mem_map.mp hc
  simpa using length_getColD_of_WF df n hwf (hall n hn)

theorem ensure_WF (df : DF) (key : String) (hwf : df.WFb = true) :
    (ensure_key_column_exists df key).WFb = true := by
  unfold ensure_key_column_exists
  by_cases h : df.hasCol key
  · rw [if_pos h]; exact hwf
  · rw [if_neg h]
    exact setCol_WF df key _ hwf (by simp)

theorem ensure_nrows (df : DF) (key : String) :
    (ensure_key_column_exists df key).nrows = df.nrows := by
  unfold ensure_key_column_exists
  by_cases h : df.hasCol key
  · rw [if_pos h]
  · rw [if_neg h]; exact setCol_nrows df key _

theorem setCol_hasCol_self (df : DF) (n : String) (col : List Cell) :
    (df.setCol n col).hasCol n = true := by
  unfold DF.setCol
  by_cases h : df.hasCol n
  · rw [if_pos h]
    unfold DF.hasCol at h ⊢
    rw [List.any_eq_true] at h ⊢
    obtain ⟨c, hc, hcn⟩ := h
    exact ⟨(n, col), List.mem_map.mpr ⟨c, hc, by rw [if_pos hcn]⟩, by simp⟩
  · rw [if_neg h]
    unfold DF.hasCol
    rw [List.any_eq_true]
    exact ⟨(n, col), by simp, by simp⟩

theorem ensure_hasCol (df : DF) (key : String) :
    (ensure_key_column_exists df key).hasCol key = true := by
  unfold ensure_key_column_exists
  by_cases h : df.hasCol key
  · rw [if_pos h]; exact h
  · rw [if_neg h]; exact setCol_hasCol_self df key _

theorem data_append (a b : String) : (a ++ b).data = a.data ++ b.data := by
  cases a; cases b; rfl

theorem underscore_append_ne_Key (c s : String) : (c ++ "_" ++ s) ≠ "Key" := by
  intro h
  have hd := congrArg String.data h
  rw [data_append, data_append] at hd
  have hm : '_' ∈ ("Key" : String).data := by
    rw [← hd]
    refine List.mem_append.mpr (Or.inl (List.mem_append.mpr (Or.inr ?_)))
    show '_' ∈ ("_" : String).data
    decide
  revert hm
  decide

theorem hasCol_iff_mem_header (df : DF) (n : String) :
    df.hasCol n = true ↔ n ∈ df.header := by
  unfold DF.hasCol DF.header
  rw [List.any_eq_true]
  constructor
  · rintro ⟨c, hc, he⟩
    exact List.mem_map.mpr ⟨c, hc, by simpa using he⟩
  · rintro hm
    obtain ⟨c, hc, he⟩ := List.mem_map.mp hm
    exact ⟨c, hc, by simpa using he⟩

theorem selectCols_hasCol (df : DF) (names : List String) (n : String) (h : n ∈ names) :
    (df.selectCols names).hasCol n = true := by
  unfold DF.selectCols DF.hasCol
  rw [List.any_eq_true]
  exact ⟨(n, df.getColD n), List.mem_map.mpr ⟨n, h, rfl⟩, by simp⟩

theorem project_WF (df : DF) (cols : List String) (key : String) (hwf : df.WFb = true) :
    (project_single_source_data df cols key).WFb = true := by
  unfold project_single_source_data
  by_cases he : df.isEmpty
  · rw [if_pos he]
    unfold DF.WFb
    rw [List.all_eq_true]
    intro c hc
    obtain ⟨n, _, rfl⟩ := List.mem_map.mp hc
    simp
  · rw [if_neg he]
    have hwf1 : (ensure_key_column_exists df key).WFb = true := ensure_WF df key hwf
    have hkeep : ∀ n ∈ get_columns_to_keep key cols (ensure_key_column_exists df key).header,
        (ensure_key_column_exists df key).hasCol n = true := by
      intro n hn
      unfold get_columns_to_keep at hn
      have h2 := (List.mem_filter.mp hn).2
      rw [hasCol_iff_mem_header]
      simpa using h2
    have hps : ((ensure_key_column_exists df key).selectCols
        (get_columns_to_keep key cols (ensure_key_column_exists df key).header)).WFb = true :=
      selectCols_WF _ _ hwf1 hkeep
    have hkmem : key ∈ get_columns_to_keep key cols (ensure_key_column_exists df key).header := by
      unfold get_columns_to_keep
      refine List.mem_filter.mpr ⟨by simp, ?_⟩
      have := ensure_hasCol df key
      rw [hasCol_iff_mem_header] at this
      simpa using this
    have hpk : ((ensure_key_column_exists df key).selectCols
        (get_columns_to_keep key cols (ensure_key_column_exists df key).header)).hasCol key =
        true := selectCols_hasCol _ _ key hkmem
    refine setCol_WF _ _ _ hps ?_
    rw [List.length_map]
    exact length_getColD_of_WF _ key hps hpk

theorem rename_WF (df : DF) (s : String) (hwf : df.WFb = true) :
    (rename_source_columns df s).WFb = true := by
  unfold rename_source_columns
  unfold DF.WFb at hwf ⊢
  rw [List.all_eq_true] at hwf ⊢
  intro c hc
  obtain ⟨c0, hc0, rfl⟩ := List.mem_map.mp hc
  exact hwf c0 hc0

theorem find?_rename (cols : List (String × List Cell)) (s : String) :
    (cols.map (fun c => ((if c.1 == "Key" then c.1 else c.1 ++ "_" ++ s, c.2) :
        String × List Cell))).find? (fun c => c.1 == "Key") =
      (cols.find? (fun c => c.1 == "Key")).map
        (fun c => (if c.1 == "Key" then c.1 else c.1 ++ "_" ++ s, c.2)) := by
  induction cols with
  | nil => rfl
  | cons c t ih =>
    by_cases h : c.1 = "Key"
    · rw [List.map_cons, List.find?_cons_of_pos _ (by simp [h]),
        List.find?_cons_of_pos _ (by simpa using h)]
      rfl
    · have hb : (c.1 == "Key") = false := by simpa using h
      rw [List.map_cons,
        List.find?_cons_of_neg _ (by
          simp only [hb, Bool.false_eq_true, if_false]
          simpa using underscore_append_ne_Key c.1 s),
        List.find?_cons_of_neg _ (by simpa using h)]
      exact ih

theorem rename_keyColD (df : DF) (s : String) :
    keyColD (rename_source_columns df s) = keyColD df := by
  unfold keyColD DF.getColD DF.getCol? rename_source_columns
  rw [find?_rename df.cols s]
  cases df.cols.find? (fun c => c.1 == "Key") with
  | none => rfl
  | some c => rfl

theorem rename_hasKey (df : DF) (s : String) :
    (rename_source_columns df s).hasCol "Key" = df.hasCol "Key" := by
  unfold rename_source_columns DF.hasCol
  cases hl : df.cols.any (fun c => c.1 == "Key") with
  | true =>
    rw [List.any_eq_true] at hl ⊢
    obtain ⟨c, hc, he⟩ := hl
    exact ⟨_, List.mem_map.mpr ⟨c, hc, rfl⟩, by simp [he]⟩
  | false =>
    rw [List.any_eq_false] at hl ⊢
    intro c hc
    obtain ⟨c0, hc0, rfl⟩ := List.mem_map.mp hc
    have h0 := hl c0 hc0
    simp only [Bool.not_eq_true] at h0 ⊢
    simp only [h0, Bool.false_eq_true, if_false]
    by_cases h : c0.1 = "Key"
    · simp [h] at h0
    · simpa using underscore_append_ne_Key c0.1 s

theorem mergeOuterOk_WF (l r : DF) : (mergeOuterOk l r).WFb = true := by
  unfold mergeOuterOk DF.WFb
  rw [List.all_eq_true]
  intro c hc
  simp only [List.mem_append] at hc
  have hflat : ∀ v : List Cell,
      (((List.range l.nrows).map (fun i => (i, (List.range r.nrows).filter
          (fun j => keyEq ((keyColD l).getD i Cell.nan) ((keyColD r).getD j Cell.nan))))).flatMap
        (fun p => if p.2.isEmpty then [v.getD p.1 Cell.nan]
          else p.2.map (fun _ => v.getD p.1 Cell.nan))).length =
      (((List.range l.nrows).map (fun i => (i, (List.range r.nrows).filter
          (fun j => keyEq ((keyColD l).getD i Cell.nan) ((keyColD r).getD j Cell.nan))))).map
        (fun p => max 1 p.2.length)).sum := by
    intro v
    rw [List.length_flatMap]
    congr 1
    refine List.map_congr_left ?_
    intro p _
    simp only [Function.comp_apply]
    by_cases hp : p.2.isEmpty
    · have h0 : p.2.length = 0 := by
        rw [List.isEmpty_iff.mp hp]; rfl
      simp [hp, h0]
    · have h1 : 1 ≤ p.2.length := by
        cases hq : p.2 with
        | nil => rw [hq] at hp; simp at hp
        | cons a t => simp
      simp only [if_neg hp, List.length_map]
      omega
  have hflat2 : ∀ v : List Cell,
      (((List.range l.nrows).map (fun i => (i, (List.range r.nrows).filter
          (fun j => keyEq ((keyColD l).getD i Cell.nan) ((keyColD r).getD j Cell.nan))))).flatMap
        (fun p => if p.2.isEmpty then [Cell.nan]
          else p.2.map (fun j => v.getD j Cell.nan))).length =
      (((List.range l.nrows).map (fun i => (i, (List.range r.nrows).filter
          (fun j => keyEq ((keyColD l).getD i Cell.nan) ((keyColD r).getD j Cell.nan))))).map
        (fun p => max 1 p.2.length)).sum := by
    intro v
    rw [List.length_flatMap]
    congr 1
    refine List.map_congr_left ?_
    intro p _
    simp only [Function.comp_apply]
    by_cases hp : p.2.isEmpty
    · have h0 : p.2.length = 0 := by
        rw [List.isEmpty_iff.mp hp]; rfl
      simp [hp, h0]
    · have h1 : 1 ≤ p.2.length := by
        cases hq : p.2 with
        | nil => rw [hq] at hp; simp at hp
        | cons a t => simp
      simp only [if_neg hp, List.length_map]
      omega
  rcases hc with hc | hc
  · obtain ⟨c0, _, rfl⟩ := List.mem_map.mp hc
    simp only [List.length_append, List.length_map]
    rw [hflat c0.2]
    simp
  · obtain ⟨c0, _, rfl⟩ := List.mem_map.mp hc
    simp only [List.length_append, List.length_map]
    rw [hflat2 c0.2]
    simp

theorem mergeOuterOk_hasKey (l r : DF) (hl : l.hasCol "Key" = true) :
    (mergeOuterOk l r).hasCol "Key" = true := by
  unfold mergeOuterOk
  unfold DF.hasCol at hl ⊢
  rw [List.any_eq_true] at hl ⊢
  obtain ⟨c, hc, he⟩ := hl
  exact ⟨_, List.mem_append.mpr (Or.inl (List.mem_map.mpr ⟨c, hc, rfl⟩)), by simpa using he⟩

theorem mergeFold_facts : ∀ (rest : List (String × DF)) (acc : DF) (m : DF),
    mergeFold acc rest = .ok m → acc.WFb = true → acc.hasCol "Key" = true →
    m.WFb = true ∧ m.hasCol "Key" = true
  | [], acc, m, h, hwf, hk => by
    injection h with h
    subst h
    exact ⟨hwf, hk⟩
  | (s, df) :: rest, acc, m, h, hwf, hk => by
    unfold mergeFold at h
    unfold mergeOuter at h
    by_cases hg : (acc.hasCol "Key" && (rename_source_columns df s).hasCol "Key") = true
    · rw [if_pos hg] at h
      exact mergeFold_facts rest _ m h (mergeOuterOk_WF _ _)
        (mergeOuterOk_hasKey _ _ hk)
    · rw [if_neg hg] at h
      cases h

theorem merge_ok_facts (projected : List (String × DF)) (m : DF)
    (hok : merge_projected_data projected = .ok m)
    (hwfs : ∀ p ∈ projected, p.2.WFb = true)
    (hkeys : ∀ p ∈ projected, p.2.hasCol "Key" = true) :
    m.WFb = true ∧ m.hasCol "Key" = true := by
  cases projected with
  | nil =>
    injection hok with hok
    subst hok
    exact ⟨by decide, by decide⟩
  | cons p rest =>
    unfold merge_projected_data at hok
    refine mergeFold_facts rest _ m hok ?_ ?_
    · exact rename_WF _ _ (hwfs p (by simp))
    · rw [rename_hasKey]
      exact hkeys p (by simp)

/-! ### Destructors for successful pipeline runs -/

theorem order_columns_ok (rc : ResultCols) (ordered : List String) (sel : ResultCols)
    (h : order_columns rc ordered = .ok sel) :
    sel = ordered.map (fun n => (n, rcFind rc n)) ∧ ∀ n ∈ ordered, rcHas rc n = true := by
  unfold order_columns at h
  by_cases hall : ordered.all (fun n => rcHas rc n) = true
  · rw [if_pos hall] at h
    injection h with h
    exact ⟨h.symm, fun n hn => List.all_eq_true.mp hall n hn⟩
  · rw [if_neg hall] at h
    cases h

theorem compare_build_ok (src : List (String × DF)) (cols : List String) (key : String)
    (rc : ResultCols) (merged : DF) (fcols : List String) (nM : Nat)
    (h : compare_build src cols key = .ok (rc, merged, fcols, nM)) :
    fcols = filteredCols cols key ∧
    merge_projected_data (project_source_data src (filteredCols cols key) key) = .ok merged ∧
    presenceColumnsOk (project_source_data src (filteredCols cols key) key) = true ∧
    rc = buildRC merged (project_source_data src (filteredCols cols key) key)
      (src.map Prod.fst) (filteredCols cols key) ∧
    nM = matchesCount merged (project_source_data src (filteredCols cols key) key)
      (src.map Prod.fst) (filteredCols cols key) := by
  unfold compare_build at h
  cases hm : merge_projected_data (project_source_data src (filteredCols cols key) key) with
  | error e => rw [hm] at h; cases h
  | ok merged2 =>
    rw [hm] at h
    dsimp only at h
    by_cases hp : presenceColumnsOk (project_source_data src (filteredCols cols key) key) = true
    · rw [if_pos hp] at h
      simp only [Except.ok.injEq, Prod.mk.injEq] at h
      obtain ⟨h1, h2, h3, h4⟩ := h
      subst h2
      exact ⟨h3.symm, rfl, hp, h1.symm, h4.symm⟩
    · rw [if_neg hp] at h
      cases h

theorem compare_sources_ok (src : List (String × DF)) (cols : List String) (key : String)
    (r : DF) (m mm : Nat) (h : compare_sources src cols key = .ok (r, m, mm)) :
    ∃ rc merged fcols nM,
      compare_build src cols key = .ok (rc, merged, fcols, nM) ∧
      r = ⟨merged.nrows, (get_ordered_columns rc fcols (src.map Prod.fst)).map
            (fun n => (n, rcFind rc n))⟩ ∧
      (∀ n ∈ get_ordered_columns rc fcols (src.map Prod.fst), rcHas rc n = true) := by
  unfold compare_sources at h
  cases hb : compare_build src cols key with
  | error e => rw [hb] at h; cases h
  | ok q =>
    rw [hb] at h
    obtain ⟨rc, merged, fcols, nM⟩ := q
    dsimp only at h
    cases ho : order_columns rc (get_ordered_columns rc fcols (src.map Prod.fst)) with
    | error e => rw [ho] at h; cases h
    | ok sel =>
      rw [ho] at h
      simp only [Except.ok.injEq, Prod.mk.injEq] at h
      obtain ⟨hr, _, _⟩ := h
      obtain ⟨hsel, hall⟩ := order_columns_ok rc _ sel ho
      exact ⟨rc, merged, fcols, nM, rfl, by rw [← hr, hsel], hall⟩

/-! ### Membership of the built columns -/

theorem mem_buildRC_matchKey (merged : DF) (projected : List (String × DF))
    (labels : List String) (fcols : List String) :
    ("Match_Key", matchKeyCells merged projected) ∈ buildRC merged projected labels fcols := by
  unfold buildRC
  simp

theorem mem_buildRC_bronMatch (merged : DF) (projected : List (String × DF))
    (labels : List String) (fcols : List String) :
    ("BronMatch", bronMatchCells merged projected labels fcols) ∈
      buildRC merged projected labels fcols := by
  unfold buildRC
  simp

theorem mem_buildRC_presence (merged : DF) (projected : List (String × DF))
    (labels : List String) (fcols : List String) (p : String × DF) (hp : p ∈ projected) :
    ("Aanwezig_" ++ p.1,
      (create_presence_series merged (sourceKeys p.2)).map boolJaNee) ∈
      buildRC merged projected labels fcols := by
  have hin : ("Aanwezig_" ++ p.1,
      (create_presence_series merged (sourceKeys p.2)).map boolJaNee) ∈
      presenceCols merged projected := List.mem_map.mpr ⟨p, hp, rfl⟩
  unfold buildRC
  simp only [List.mem_append]
  tauto

theorem mem_buildRC_sourceVal (merged : DF) (projected : List (String × DF))
    (labels : List String) (fcols : List String) (s col : String)
    (hs : s ∈ labels) (hcol : col ∈ fcols) :
    (s ++ "_" ++ col, sourceValueCol merged s col) ∈
      buildRC merged projected labels fcols := by
  have hin : (s ++ "_" ++ col, sourceValueCol merged s col) ∈
      sourceColumnCols merged fcols labels := by
    unfold sourceColumnCols
    refine List.mem_append.mpr (Or.inr ?_)
    exact List.mem_flatMap.mpr ⟨col, hcol, List.mem_map.mpr ⟨s, hs, rfl⟩⟩
  unfold buildRC
  simp only [List.mem_append]
  tauto

theorem mem_buildRC_matchCol (merged : DF) (projected : List (String × DF))
    (labels : List String) (fcols : List String) (col : String)
    (hcol : col ∈ fcols) (hne : merged.isEmpty = false) :
    ("Match_" ++ col, matchColCells merged labels col) ∈
      buildRC merged projected labels fcols := by
  have hin : ("Match_" ++ col, matchColCells merged labels col) ∈
      matchCols merged labels fcols := by
    unfold matchCols
    rw [if_neg (by simp [hne])]
    exact List.mem_map.mpr ⟨col, hcol, rfl⟩
  unfold buildRC
  simp only [List.mem_append]
  tauto

/-! ### Membership of the ordered column names -/

theorem strStartsWith_append (pre s : String) : strStartsWith (pre ++ s) pre = true := by
  unfold strStartsWith
  rw [data_append]
  rw [List.isPrefixOf_iff_prefix]
  exact List.prefix_append pre.data s.data

theorem mem_ordered_matchKey (rc : ResultCols) (fcols labels : List String) :
    "Match_Key" ∈ get_ordered_columns rc fcols labels := by
  unfold get_ordered_columns
  simp

theorem mem_ordered_bronMatch (rc : ResultCols) (fcols labels : List String) :
    "BronMatch" ∈ get_ordered_columns rc fcols labels := by
  unfold get_ordered_columns
  simp

theorem mem_ordered_presence (rc : ResultCols) (fcols labels : List String) (s : String)
    (hmem : ("Aanwezig_" ++ s) ∈ rc.map Prod.fst) :
    ("Aanwezig_" ++ s) ∈ get_ordered_columns rc fcols labels := by
  have hin : ("Aanwezig_" ++ s) ∈
      (rc.map Prod.fst).filter (fun c => strStartsWith c "Aanwezig_") :=
    List.mem_filter.mpr ⟨hmem, strStartsWith_append "Aanwezig_" s⟩
  unfold get_ordered_columns
  simp only [List.mem_append]
  tauto

theorem mem_ordered_sourceVal (rc : ResultCols) (fcols labels : List String) (s col : String)
    (hs : s ∈ labels) (hcol : col ∈ fcols) :
    (s ++ "_" ++ col) ∈ get_ordered_columns rc fcols labels := by
  have hin : (s ++ "_" ++ col) ∈ fcols.flatMap
      (fun col => labels.map (fun s => s ++ "_" ++ col) ++ ["Match_" ++ col]) :=
    List.mem_flatMap.mpr ⟨col, hcol,
      List.mem_append.mpr (Or.inl (List.mem_map.mpr ⟨s, hs, rfl⟩))⟩
  unfold get_ordered_columns
  simp only [List.mem_append]
  tauto

theorem mem_ordered_matchCol (rc : ResultCols) (fcols labels : List String) (col : String)
    (hcol : col ∈ fcols) :
    ("Match_" ++ col) ∈ get_ordered_columns rc fcols labels := by
  have hin : ("Match_" ++ col) ∈ fcols.flatMap
      (fun col => labels.map (fun s => s ++ "_" ++ col) ++ ["Match_" ++ col]) :=
    List.mem_flatMap.mpr ⟨col, hcol, List.mem_append.mpr (Or.inr (by simp))⟩
  unfold get_ordered_columns
  simp only [List.mem_append]
  tauto

/-- A cell of the final (column-ordered) frame is the corresponding cell
of the built column. -/
theorem result_cell (m : Nat) (rc : ResultCols) (ordered : List String) (n : String)
    (hmem : n ∈ ordered) (i : Nat) :
    (DF.mk m (ordered.map (fun nn => (nn, rcFind rc nn)))).cell n i =
      (rcFind rc n).getD i Cell.nan := by
  unfold DF.cell
  rw [getColD_selected m rc ordered n hmem]

/-! ### Pointwise facts about the presence fold -/

theorem getD_replicate {α : Type} (a d : α) (n i : Nat) (hi : i < n) :
    (List.replicate n a).getD i d = a := by
  induction n generalizing i with
  | zero => cases hi
  | succ k ih =>
    cases i with
    | zero => rfl
    | succ j => exact ih j (Nat.lt_of_succ_lt_succ hi)

theorem zipAnd_length (a b : List Bool) : (zipAnd a b).length = min a.length b.length := by
  unfold zipAnd
  exact List.length_zipWith _ a b

theorem zipAnd_getD (a b : List Bool) (i : Nat) (hi : i < a.length)
    (hlen : b.length = a.length) :
    (zipAnd a b).getD i false = (a.getD i false && b.getD i false) := by
  unfold zipAnd
  induction a generalizing b i with
  | nil => cases hi
  | cons x xs ih =>
    cases b with
    | nil => cases hlen
    | cons y ys =>
      cases i with
      | zero => rfl
      | succ j =>
        exact ih ys j (Nat.lt_of_succ_lt_succ hi) (by simpa using hlen)

theorem foldl_zipAnd (ls : List (List Bool)) : ∀ (start : List Bool),
    (∀ l ∈ ls, l.length = start.length) →
    (ls.foldl zipAnd start).length = start.length ∧
    ∀ i, i < start.length → (ls.foldl zipAnd start).getD i false =
      (start.getD i false && ls.all (fun l => l.getD i false)) := by
  induction ls with
  | nil => intro start _; simp
  | cons l rest ih =>
    intro start hlen
    have h1 : (zipAnd start l).length = start.length := by
      rw [zipAnd_length, hlen l (by simp)]
      simp
    obtain ⟨ihlen, ihget⟩ := ih (zipAnd start l) (fun l2 hl2 => by
      rw [h1]; exact hlen l2 (List.mem_cons_of_mem l hl2))
    refine ⟨by rw [List.foldl_cons, ihlen, h1], ?_⟩
    intro i hi
    rw [List.foldl_cons, ihget i (by rw [h1]; exact hi),
      zipAnd_getD start l i hi (hlen l (by simp)), List.all_cons, Bool.and_assoc]

theorem create_presence_series_length (merged : DF) (keys : List String)
    (hne : merged.isEmpty = false) (hwfm : merged.WFb = true)
    (hkm : merged.hasCol "Key" = true) :
    (create_presence_series merged keys).length = merged.nrows := by
  unfold create_presence_series
  rw [if_neg (by simp [hne])]
  rw [List.length_map]
  exact length_getColD_of_WF merged "Key" hwfm hkm

theorem all_map_manual {α β : Type} (f : α → β) (l : List α) (p : β → Bool) :
    (l.map f).all p = l.all (fun a => p (f a)) := by
  induction l with
  | nil => rfl
  | cons a t ih => rw [List.map_cons, List.all_cons, List.all_cons, ih]

theorem boolJaNee_cases (b : Bool) :
    boolJaNee b = Cell.str "ja" ∨ boolJaNee b = Cell.str "nee" := by
  cases b
  · exact Or.inr rfl
  · exact Or.inl rfl

/-- C3: in every reconciled row, `Match_Key` is "ja" exactly when the
`Aanwezig_<source>` flag is "ja" for every configured source, and is
"nee" otherwise (the generated column names are assumed distinct, as
they are for every non-pathological labelling). -/
theorem C3_match_key_iff_all_present (src : List (String × DF)) (cols : List String)
    (key : String) (r : DF) (m mm : Nat)
    (hwfs : ∀ p ∈ src, p.2.WFb = true)
    (hok : compare_sources src cols key = .ok (r, m, mm))
    (hnd : (((okBuild (compare_build src cols key)).1).map Prod.fst).Nodup) :
    ∀ i, i < r.nrows →
      (r.cell "Match_Key" i = Cell.str "ja" ↔
        ∀ s ∈ src.map Prod.fst, r.cell ("Aanwezig_" ++ s) i = Cell.str "ja") ∧
      (r.cell "Match_Key" i = Cell.str "ja" ∨ r.cell "Match_Key" i = Cell.str "nee") := by
  obtain ⟨rc, merged, fcols, nM, hb, hr, hall⟩ := compare_sources_ok src cols key r m mm hok
  obtain ⟨hfc, hm, hp, hrc, hnM⟩ := compare_build_ok src cols key rc merged fcols nM hb
  subst hfc
  rw [hb] at hnd
  dsimp only [okBuild] at hnd
  have hwfp : ∀ p ∈ project_source_data src (filteredCols cols key) key, p.2.WFb = true := by
    intro p hpm
    obtain ⟨q, hq, rfl⟩ := List.mem_map.mp hpm
    exact project_WF q.2 _ key (hwfs q hq)
  have hkp : ∀ p ∈ project_source_data src (filteredCols cols key) key,
      p.2.hasCol "Key" = true := by
    intro p hpm
    exact List.all_eq_true.mp hp p hpm
  obtain ⟨hwfm, hkm⟩ := merge_ok_facts _ merged hm hwfp hkp
  have hrn : r.nrows = merged.nrows := by rw [hr]
  intro i hi
  rw [hrn] at hi
  have hme' : merged.isEmpty = false := by
    cases hq : merged.isEmpty with
    | false => rfl
    | true =>
      exfalso
      unfold DF.isEmpty at hq
      rcases Bool.or_eq_true_iff.mp hq with h0 | hce
      · have h0' : merged.nrows = 0 := by simpa using h0
        rw [h0'] at hi
        cases hi
      · unfold DF.hasCol at hkm
        rw [List.isEmpty_iff.mp hce] at hkm
        cases hkm
  have hklen : (keyColD merged).length = merged.nrows :=
    length_getColD_of_WF merged "Key" hwfm hkm
  have hplen : ∀ p ∈ project_source_data src (filteredCols cols key) key,
      (create_presence_series merged (sourceKeys p.2)).length = merged.nrows := by
    intro p _
    exact create_presence_series_length merged _ hme' hwfm hkm
  have hfold := foldl_zipAnd
    ((project_source_data src (filteredCols cols key) key).map
      (fun p => create_presence_series merged (sourceKeys p.2)))
    (List.replicate merged.nrows true)
    (by
      intro l hl
      obtain ⟨p, hpm, rfl⟩ := List.mem_map.mp hl
      rw [List.length_replicate]
      exact hplen p hpm)
  obtain ⟨hflen, hfget⟩ := hfold
  have hstart : (List.replicate merged.nrows true).length = merged.nrows :=
    List.length_replicate merged.nrows true
  have heq : (project_source_data src (filteredCols cols key) key).foldl
      (fun acc p => zipAnd acc (create_presence_series merged (sourceKeys p.2)))
      (List.replicate merged.nrows true) =
      ((project_source_data src (filteredCols cols key) key).map
        (fun p => create_presence_series merged (sourceKeys p.2))).foldl zipAnd
      (List.replicate merged.nrows true) :=
    (List.foldl_map _ _ _ _).symm
  have hallP : (allPresentSeries merged
      (project_source_data src (filteredCols cols key) key)).getD i false =
      (project_source_data src (filteredCols cols key) key).all
        (fun p => (create_presence_series merged (sourceKeys p.2)).getD i false) := by
    unfold allPresentSeries
    rw [if_neg (by simp [hme'])]
    rw [heq, hfget i (by rw [hstart]; exact hi),
      getD_replicate true false merged.nrows i hi, Bool.true_and]
    exact all_map_manual _ _ _
  have hcellMK : r.cell "Match_Key" i =
      boolJaNee ((allPresentSeries merged
        (project_source_data src (filteredCols cols key) key)).getD i false) := by
    rw [hr]
    rw [result_cell _ rc _ "Match_Key" (mem_ordered_matchKey rc (filteredCols cols key) (src.map Prod.fst)) i]
    rw [rcFind_of_nodup rc "Match_Key" _ hnd (by
      rw [hrc]
      exact mem_buildRC_matchKey merged _ (src.map Prod.fst) (filteredCols cols key))]
    unfold matchKeyCells
    rw [if_neg (by simp [hme'])]
    refine getD_map boolJaNee _ i false Cell.nan ?_
    unfold allPresentSeries
    rw [if_neg (by simp [hme'])]
    rw [heq, hflen, hstart]
    exact hi
  have hcellA : ∀ q ∈ src, r.cell ("Aanwezig_" ++ q.1) i =
      boolJaNee ((create_presence_series merged
        (sourceKeys (project_single_source_data q.2 (filteredCols cols key) key))).getD
          i false) := by
    intro q hq
    have hmemP : ((q.1, project_single_source_data q.2 (filteredCols cols key) key) :
        String × DF) ∈ project_source_data src (filteredCols cols key) key :=
      List.mem_map.mpr ⟨q, hq, rfl⟩
    have hmemRC : ("Aanwezig_" ++ q.1,
        (create_presence_series merged
          (sourceKeys (project_single_source_data q.2 (filteredCols cols key) key))).map
          boolJaNee) ∈ buildRC merged
            (project_source_data src (filteredCols cols key) key)
            (src.map Prod.fst) (filteredCols cols key) := by
      simpa using mem_buildRC_presence merged _ (src.map Prod.fst) (filteredCols cols key)
        (q.1, project_single_source_data q.2 (filteredCols cols key) key) hmemP
    rw [hr]
    rw [result_cell _ rc _ _ (mem_ordered_presence rc (filteredCols cols key)
      (src.map Prod.fst) q.1
      (by
        rw [hrc]
        exact List.mem_map.mpr ⟨_, hmemRC, rfl⟩)) i]
    rw [rcFind_of_nodup rc _ _ hnd (by rw [hrc]; exact hmemRC)]
    refine getD_map boolJaNee _ i false Cell.nan ?_
    rw [hplen _ hmemP]
    exact hi
  constructor
  · rw [hcellMK, boolJaNee_eq_ja, hallP, List.all_eq_true]
    constructor
    · intro hfo s hs
      obtain ⟨q, hq, rfl⟩ := List.mem_map.mp hs
      rw [hcellA q hq, boolJaNee_eq_ja]
      have := hfo _ (List.mem_map.mpr ⟨q, hq, rfl⟩)
      simpa using this
    · intro hfo p hpm
      obtain ⟨q, hq, rfl⟩ := List.mem_map.mp hpm
      have := hfo q.1 (List.mem_map.mpr ⟨q, hq, rfl⟩)
      rw [hcellA q hq, boolJaNee_eq_ja] at this
      simpa using this
  · rw [hcellMK]
    exact boolJaNee_cases _

/-- C3 witness: the statement instantiated at a concrete two-source
comparison. -/
theorem C3_match_key_iff_all_present_witness :
    (∀ p ∈ [("A", exDF1), ("B", exDF2)], p.2.WFb = true) ∧
    (((okBuild (compare_build [("A", exDF1), ("B", exDF2)] ["val"] "id")).1.map
        Prod.fst).Nodup) ∧
    (∀ i, i < (okResult (compare_sources [("A", exDF1), ("B", exDF2)] ["val"] "id")).nrows →
      ((okResult (compare_sources [("A", exDF1), ("B", exDF2)] ["val"] "id")).cell
          "Match_Key" i = Cell.str "ja" ↔
        ∀ s ∈ [("A", exDF1), ("B", exDF2)].map Prod.fst,
          (okResult (compare_sources [("A", exDF1), ("B", exDF2)] ["val"] "id")).cell
            ("Aanwezig_" ++ s) i = Cell.str "ja") ∧
      ((okResult (compare_sources [("A", exDF1), ("B", exDF2)] ["val"] "id")).cell
          "Match_Key" i = Cell.str "ja" ∨
       (okResult (compare_sources [("A", exDF1), ("B", exDF2)] ["val"] "id")).cell
          "Match_Key" i = Cell.str "nee")) :=
  ⟨by decide, by decide,
   C3_match_key_iff_all_present [("A", exDF1), ("B", exDF2)] ["val"] "id"
     (okResult (compare_sources [("A", exDF1), ("B", exDF2)] ["val"] "id"))
     (okMatches (compare_sources [("A", exDF1), ("B", exDF2)] ["val"] "id"))
     (okMismatches (compare_sources [("A", exDF1), ("B", exDF2)] ["val"] "id"))
     (by decide) rfl (by decide)⟩

/-- C5 (amended): for every successful pass in which the only built
columns starting with `Aanwezig_` are the presence columns themselves
(true whenever no source label starts with `Aanwezig`), the reconciled
table's column sequence is exactly the contracted one. -/
theorem C5_column_order_amended (src : List (String × DF)) (cols : List String)
    (key : String) (r : DF) (m mm : Nat)
    (hok : compare_sources src cols key = .ok (r, m, mm))
    (hfilter : ((okBuild (compare_build src cols key)).1.map Prod.fst).filter
        (fun c => strStartsWith c "Aanwezig_") =
      (src.map Prod.fst).map (fun s => "Aanwezig_" ++ s)) :
    r.header = specColumnOrder (src.map Prod.fst) (filteredCols cols key) := by
  obtain ⟨rc, merged, fcols, nM, hb, hr, hall⟩ := compare_sources_ok src cols key r m mm hok
  obtain ⟨hfc, _, _, _, _⟩ := compare_build_ok src cols key rc merged fcols nM hb
  subst hfc
  rw [hb] at hfilter
  dsimp only [okBuild] at hfilter
  rw [hr]
  unfold DF.header
  rw [List.map_map]
  have hid : (Prod.fst ∘ fun n => (n, rcFind rc n)) = fun n : String => n := by
    funext n; rfl
  rw [hid]
  have hmapid : ∀ l : List String, l.map (fun n => n) = l := by
    intro l
    induction l with
    | nil => rfl
    | cons a t ih => rw [List.map_cons, ih]
  rw [hmapid]
  unfold get_ordered_columns specColumnOrder
  rw [hfilter]

/-- C5 witness: the amended statement at a concrete two-source pass. -/
theorem C5_column_order_amended_witness :
    (((okBuild (compare_build [("A", exDF1), ("B", exDF2)] ["val"] "id")).1.map
        Prod.fst).filter (fun c => strStartsWith c "Aanwezig_") =
      ([("A", exDF1), ("B", exDF2)].map Prod.fst).map (fun s => "Aanwezig_" ++ s)) ∧
    (okResult (compare_sources [("A", exDF1), ("B", exDF2)] ["val"] "id")).header =
      specColumnOrder ([("A", exDF1), ("B", exDF2)].map Prod.fst)
        (filteredCols ["val"] "id") :=
  ⟨by decide,
   C5_column_order_amended [("A", exDF1), ("B", exDF2)] ["val"] "id"
     (okResult (compare_sources [("A", exDF1), ("B", exDF2)] ["val"] "id"))
     (okMatches (compare_sources [("A", exDF1), ("B", exDF2)] ["val"] "id"))
     (okMismatches (compare_sources [("A", exDF1), ("B", exDF2)] ["val"] "id"))
     rfl (by decide)⟩

/-! ### Bridging index-based row construction to value-based lists -/

theorem flatMap_map_manual {α β γ : Type} (f : α → β) (g : β → List γ) (l : List α) :
    (l.map f).flatMap g = l.flatMap (fun a => g (f a)) := by
  induction l with
  | nil => rfl
  | cons a t ih => rw [List.map_cons, List.flatMap_cons, List.flatMap_cons, ih]

theorem flatMap_range_getD {α β : Type} (l : List α) (d : α) (f : α → List β) :
    (List.range l.length).flatMap (fun i => f (l.getD i d)) = l.flatMap f := by
  induction l with
  | nil => rfl
  | cons a t ih =>
    rw [List.length_cons, List.range_succ_eq_map, List.flatMap_cons,
      flatMap_map_manual, List.flatMap_cons]
    congr 1

theorem filter_range_map_getD {α : Type} (l : List α) (d : α) (p : α → Bool) :
    ((List.range l.length).filter (fun i => p (l.getD i d))).map (fun i => l.getD i d) =
      l.filter p := by
  induction l with
  | nil => rfl
  | cons a t ih =>
    rw [List.length_cons, List.range_succ_eq_map, List.filter_cons]
    by_cases hp : p a
    · rw [if_pos (by exact hp), List.map_cons, List.filter_map, List.map_map,
        List.filter_cons, if_pos (by exact hp)]
      refine congrArg₂ List.cons rfl ?_
      exact ih
    · rw [if_neg (by exact hp), List.filter_map, List.map_map,
        List.filter_cons, if_neg (by exact hp)]
      exact ih

theorem length_filter_range_getD {α : Type} (l : List α) (d : α) (p : α → Bool) :
    ((List.range l.length).filter (fun i => p (l.getD i d))).length = l.countP p := by
  have h := congrArg List.length (filter_range_map_getD l d p)
  rw [List.length_map] at h
  rw [h]
  exact (List.countP_eq_length_filter p l).symm

theorem all_range_getD {α : Type} (l : List α) (d : α) (p : α → Bool) :
    (List.range l.length).all (fun i => p (l.getD i d)) = l.all p := by
  induction l with
  | nil => rfl
  | cons a t ih =>
    rw [List.length_cons, List.range_succ_eq_map, List.all_cons, all_map_manual,
      List.all_cons]
    refine congrArg₂ (fun x y => x && y) rfl ?_
    exact ih

theorem map_const_replicate {α β : Type} (l : List α) (b : β) :
    l.map (fun _ => b) = List.replicate l.length b := by
  induction l with
  | nil => rfl
  | cons a t ih => rw [List.map_cons, List.length_cons, List.replicate_succ, ih]

theorem flatMap_congr_manual {α β : Type} (l : List α) (f g : α → List β)
    (h : ∀ a ∈ l, f a = g a) : l.flatMap f = l.flatMap g := by
  induction l with
  | nil => rfl
  | cons a t ih =>
    rw [List.flatMap_cons, List.flatMap_cons, h a (by simp),
      ih (fun b hb => h b (List.mem_cons_of_mem a hb))]

theorem filter_congr_manual {α : Type} (l : List α) (p q : α → Bool)
    (h : ∀ a ∈ l, p a = q a) : l.filter p = l.filter q := by
  induction l with
  | nil => rfl
  | cons a t ih =>
    rw [List.filter_cons, List.filter_cons, h a (by simp),
      ih (fun b hb => h b (List.mem_cons_of_mem a hb))]

theorem find?_append_some {α : Type} (p : α → Bool) (l₁ l₂ : List α) (a : α)
    (h : l₁.find? p = some a) : (l₁ ++ l₂).find? p = some a := by
  induction l₁ with
  | nil => cases h
  | cons b t ih =>
    rw [List.cons_append]
    by_cases hb : p b = true
    · rw [List.find?_cons_of_pos _ hb] at h
      rw [List.find?_cons_of_pos _ hb]
      exact h
    · rw [List.find?_cons_of_neg _ hb] at h
      rw [List.find?_cons_of_neg _ hb]
      exact ih h

theorem find?_fst_map (cols : List (String × List Cell))
    (F : String × List Cell → String × List Cell)
    (hF : ∀ c, (F c).1 = c.1) (n : String) :
    (cols.map F).find? (fun c => c.1 == n) =
      (cols.find? (fun c => c.1 == n)).map F := by
  induction cols with
  | nil => rfl
  | cons a t ih =>
    rw [List.map_cons]
    by_cases ha : (a.1 == n) = true
    · rw [List.find?_cons_of_pos _ (by rw [hF a]; exact ha),
        List.find?_cons_of_pos _ (by exact ha)]
      rfl
    · rw [List.find?_cons_of_neg _ (by rw [hF a]; exact ha),
        List.find?_cons_of_neg _ (by exact ha)]
      exact ih

theorem keyEq_str_left (k : String) (b : Cell) :
    keyEq (Cell.str k) b = (b == Cell.str k) := by
  cases b with
  | str s =>
    show (k == s) = (Cell.str s == Cell.str k)
    by_cases h : s = k
    · subst h
      simp
    · have h2 : k ≠ s := fun hh => h hh.symm
      simp [h, h2]
  | nan => rfl
  | na => rfl

theorem keyEq_str_right (k : String) (b : Cell) :
    keyEq b (Cell.str k) = (b == Cell.str k) := by
  cases b with
  | str s =>
    show (s == k) = (Cell.str s == Cell.str k)
    by_cases h : s = k
    · subst h
      simp
    · simp [h]
  | nan => rfl
  | na => rfl

theorem countP_keyEq_str (rk : List Cell) (k : String) :
    rk.countP (fun b => keyEq (Cell.str k) b) = rk.count (Cell.str k) := by
  induction rk with
  | nil => rfl
  | cons b t ih =>
    rw [List.countP_cons, List.count_cons, ih, keyEq_str_left]

theorem count_filter_manual {α : Type} [DecidableEq α] (l : List α) (p : α → Bool)
    (c : α) : (l.filter p).count c = if p c then l.count c else 0 := by
  induction l with
  | nil =>
    rw [List.filter_nil]
    cases hp : p c <;> simp [hp]
  | cons b t ih =>
    rw [List.filter_cons]
    by_cases hb : b = c
    · subst hb
      cases hp : p b <;> simp [hp, ih, List.count_cons_self]
    · have hbc : (b == c) = false := by simp [hb]
      cases hp : p b <;> simp [hp, ih, List.count_cons, hbc]

theorem all_not_keyEq_str (lk : List Cell) (k : String) :
    lk.all (fun a => !keyEq a (Cell.str k)) = decide (lk.count (Cell.str k) = 0) := by
  induction lk with
  | nil => rfl
  | cons a t ih =>
    rw [List.all_cons, ih, List.count_cons, keyEq_str_right]
    by_cases ha : a = Cell.str k
    · subst ha
      simp
    · have hac : (a == Cell.str k) = false := by simp [ha]
      rw [hac]
      simp

theorem expandKey_left (lk rk : List Cell) :
    (((List.range lk.length).map (fun i => (i, (List.range rk.length).filter
        (fun j => keyEq (lk.getD i Cell.nan) (rk.getD j Cell.nan))))).flatMap
      (fun p => if p.2.isEmpty then [lk.getD p.1 Cell.nan]
        else p.2.map (fun _ => lk.getD p.1 Cell.nan))) =
    lk.flatMap (fun a =>
      if rk.countP (fun b => keyEq a b) = 0 then [a]
      else List.replicate (rk.countP (fun b => keyEq a b)) a) := by
  rw [flatMap_map_manual]
  refine Eq.trans (flatMap_range_getD lk Cell.nan (fun a =>
    if ((List.range rk.length).filter (fun j => keyEq a (rk.getD j Cell.nan))).isEmpty
    then [a]
    else ((List.range rk.length).filter
      (fun j => keyEq a (rk.getD j Cell.nan))).map (fun _ => a))) ?_
  refine flatMap_congr_manual _ _ _ ?_
  intro a _
  have hMl : ((List.range rk.length).filter
      (fun j => keyEq a (rk.getD j Cell.nan))).length = rk.countP (fun b => keyEq a b) :=
    length_filter_range_getD rk Cell.nan (fun b => keyEq a b)
  by_cases hc : rk.countP (fun b => keyEq a b) = 0
  · have hM0 : (List.range rk.length).filter (fun j => keyEq a (rk.getD j Cell.nan)) = [] :=
      List.eq_nil_of_length_eq_zero (by rw [hMl]; exact hc)
    rw [hM0, if_pos hc]
    rfl
  · cases hM : (List.range rk.length).filter (fun j => keyEq a (rk.getD j Cell.nan)) with
    | nil =>
      exfalso
      exact hc (by rw [← hMl, hM]; rfl)
    | cons x xs =>
      rw [hM] at hMl
      have h2 : (if (x :: xs).isEmpty = true then [a] else (x :: xs).map (fun _ => a)) =
          (x :: xs).map (fun _ => a) := rfl
      rw [h2, map_const_replicate, hMl, if_neg hc]

theorem expandKey_right (lk rk : List Cell) :
    ((List.range rk.length).filter (fun j => (List.range lk.length).all
        (fun i => !keyEq (lk.getD i Cell.nan) (rk.getD j Cell.nan)))).map
      (fun j => rk.getD j Cell.nan) =
    rk.filter (fun b => lk.all (fun a => !keyEq a b)) := by
  have hcong : (List.range rk.length).filter (fun j => (List.range lk.length).all
      (fun i => !keyEq (lk.getD i Cell.nan) (rk.getD j Cell.nan))) =
      (List.range rk.length).filter
        (fun j => lk.all (fun a => !keyEq a (rk.getD j Cell.nan))) :=
    filter_congr_manual _ _ _
      (fun j _ => all_range_getD lk Cell.nan (fun a => !keyEq a (rk.getD j Cell.nan)))
  rw [hcong]
  exact filter_range_map_getD rk Cell.nan (fun b => lk.all (fun a => !keyEq a b))

theorem keyColD_mk_append (nr : Nat) (cols₁ cols₂ : List (String × List Cell))
    (c0 : String × List Cell) (h : cols₁.find? (fun c => c.1 == "Key") = some c0) :
    keyColD (DF.mk nr (cols₁ ++ cols₂)) = c0.2 := by
  unfold keyColD DF.getColD DF.getCol?
  rw [find?_append_some _ _ _ _ h]
  rfl

theorem mergeOuterOk_keyCol (l r : DF) (hwl : l.WFb = true) (hwr : r.WFb = true)
    (hl : l.hasCol "Key" = true) (hr : r.hasCol "Key" = true) :
    keyColD (mergeOuterOk l r) = keyExpansion (keyColD l) (keyColD r) := by
  have hll : (keyColD l).length = l.nrows := length_getColD_of_WF l "Key" hwl hl
  have hlr : (keyColD r).length = r.nrows := length_getColD_of_WF r "Key" hwr hr
  have hex : ∃ c0, l.cols.find? (fun c => c.1 == "Key") = some c0 := by
    unfold DF.hasCol at hl
    obtain ⟨x, hx, hpx⟩ := List.any_eq_true.mp hl
    exact Option.isSome_iff_exists.mp (List.find?_isSome.mpr ⟨x, hx, hpx⟩)
  obtain ⟨⟨n0, v0⟩, hf0⟩ := hex
  have hc01 : n0 = "Key" := by
    have := List.find?_some hf0
    simpa using this
  subst hc01
  have hv0 : keyColD l = v0 := by
    unfold keyColD DF.getColD DF.getCol?
    rw [hf0]
    rfl
  simp only [mergeOuterOk]
  rw [keyColD_mk_append _ _ _ _
    (by rw [find?_fst_map l.cols _ (by exact fun c => rfl) "Key", hf0]; rfl)]
  dsimp only
  rw [← hv0, ← hll, ← hlr]
  exact congrArg₂ (fun x y : List Cell => x ++ y)
    (expandKey_left (keyColD l) (keyColD r)) (expandKey_right (keyColD l) (keyColD r))

theorem count_flatMap_keyExp (lk rk : List Cell) (k : String) :
    (lk.flatMap (fun a =>
      if rk.countP (fun b => keyEq a b) = 0 then [a]
      else List.replicate (rk.countP (fun b => keyEq a b)) a)).count (Cell.str k) =
    lk.count (Cell.str k) * max 1 (rk.count (Cell.str k)) := by
  induction lk with
  | nil => simp
  | cons a t ih =>
    rw [List.flatMap_cons, List.count_append, ih, List.count_cons]
    by_cases ha : a = Cell.str k
    · subst ha
      rw [countP_keyEq_str]
      have hself : (Cell.str k == Cell.str k) = true := by simp
      rw [hself]
      by_cases hc : rk.count (Cell.str k) = 0
      · rw [if_pos hc, hc]
        simp
        omega
      · rw [if_neg hc]
        rw [List.count_replicate]
        rw [hself]
        have hmax : max 1 (rk.count (Cell.str k)) = rk.count (Cell.str k) := by omega
        rw [hmax]
        simp
        ring
    · have hac : (a == Cell.str k) = false := by simp [ha]
      rw [hac]
      by_cases hc : rk.countP (fun b => keyEq a b) = 0
      · rw [if_pos hc]
        have h1 : [a].count (Cell.str k) = 0 := by
          rw [List.count_cons, hac]
          rfl
        rw [h1]
        simp
      · rw [if_neg hc]
        have h1 : (List.replicate (rk.countP (fun b => keyEq a b)) a).count (Cell.str k) = 0 := by
          rw [List.count_replicate, hac]
          simp
        rw [h1]
        simp

theorem count_filter_keyExp (lk rk : List Cell) (k : String) :
    (rk.filter (fun b => lk.all (fun a => !keyEq a b))).count (Cell.str k) =
      if lk.count (Cell.str k) = 0 then rk.count (Cell.str k) else 0 := by
  rw [count_filter_manual]
  by_cases hc : lk.count (Cell.str k) = 0
  · rw [if_pos hc]
    have hcond : lk.all (fun a => !keyEq a (Cell.str k)) = true := by
      rw [all_not_keyEq_str]
      simpa using hc
    rw [if_pos (by exact hcond)]
  · rw [if_neg hc]
    have hcond : lk.all (fun a => !keyEq a (Cell.str k)) = false := by
      rw [all_not_keyEq_str]
      simpa using hc
    rw [if_neg (by intro hh; rw [hcond] at hh; cases hh)]

theorem count_keyExpansion (lk rk : List Cell) (k : String) :
    (keyExpansion lk rk).count (Cell.str k) =
      if lk.count (Cell.str k) = 0 then rk.count (Cell.str k)
      else lk.count (Cell.str k) * max 1 (rk.count (Cell.str k)) := by
  unfold keyExpansion
  rw [List.count_append, count_flatMap_keyExp, count_filter_keyExp]
  by_cases hc : lk.count (Cell.str k) = 0
  · rw [if_pos hc, if_pos hc, hc]
    simp
  · rw [if_neg hc, if_neg hc]
    simp

theorem countKey_rename (df : DF) (s : String) (k : String) :
    countKey (rename_source_columns df s) k = countKey df k := by
  unfold countKey
  rw [rename_keyColD]

theorem countKey_merge_step (acc rdf : DF) (k : String)
    (hwa : acc.WFb = true) (hwr : rdf.WFb = true)
    (hka : acc.hasCol "Key" = true) (hkr : rdf.hasCol "Key" = true) :
    countKey (mergeOuterOk acc rdf) k =
      if countKey acc k = 0 then countKey rdf k
      else countKey acc k * max 1 (countKey rdf k) := by
  unfold countKey
  rw [mergeOuterOk_keyCol acc rdf hwa hwr hka hkr, count_keyExpansion]

theorem mergeFold_count (k : String) : ∀ (rest : List (String × DF)) (acc m : DF),
    mergeFold acc rest = .ok m → acc.WFb = true → acc.hasCol "Key" = true →
    (∀ p ∈ rest, p.2.WFb = true) →
    countKey acc k ≤ 1 → (∀ p ∈ rest, countKey p.2 k ≤ 1) →
    countKey m k ≤ 1 ∧
      ((0 < countKey acc k ∨ ∃ p ∈ rest, 0 < countKey p.2 k) → countKey m k = 1)
  | [], acc, m, h, _, _, _, hc1, _ => by
    injection h with h
    subst h
    refine ⟨hc1, ?_⟩
    rintro (hpos | ⟨p, hp, _⟩)
    · omega
    · exact absurd hp (List.not_mem_nil p)
  | (s, df) :: rest, acc, m, h, hwf, hk, hwfs, hc1, hcs => by
    unfold mergeFold at h
    unfold mergeOuter at h
    by_cases hg : (acc.hasCol "Key" && (rename_source_columns df s).hasCol "Key") = true
    · rw [if_pos hg] at h
      have hkr : (rename_source_columns df s).hasCol "Key" = true := by
        simp only [Bool.and_eq_true] at hg
        exact hg.2
      have hwfr : (rename_source_columns df s).WFb = true :=
        rename_WF df s (hwfs (s, df) (by simp))
      have hcount : countKey (mergeOuterOk acc (rename_source_columns df s)) k =
          if countKey acc k = 0 then countKey df k
          else countKey acc k * max 1 (countKey df k) := by
        rw [countKey_merge_step acc _ k hwf hwfr hk hkr, countKey_rename]
      have hdf1 : countKey df k ≤ 1 := hcs (s, df) (by simp)
      have hnew1 : countKey (mergeOuterOk acc (rename_source_columns df s)) k ≤ 1 := by
        rw [hcount]
        by_cases h0 : countKey acc k = 0
        · rw [if_pos h0]
          exact hdf1
        · rw [if_neg h0]
          have ha1 : countKey acc k = 1 := by omega
          rw [ha1, Nat.one_mul]
          have h01 : countKey df k = 0 ∨ countKey df k = 1 := by omega
          rcases h01 with h0' | h1'
          · rw [h0']
            decide
          · rw [h1']
            decide
      obtain ⟨hm1, hmpos⟩ := mergeFold_count k rest _ m h (mergeOuterOk_WF _ _)
        (mergeOuterOk_hasKey _ _ hk) (fun p hp => hwfs p (List.mem_cons_of_mem _ hp))
        hnew1 (fun p hp => hcs p (List.mem_cons_of_mem _ hp))
      refine ⟨hm1, ?_⟩
      rintro (hpos | ⟨p, hp, hppos⟩)
      · apply hmpos
        left
        rw [hcount]
        by_cases h0 : countKey acc k = 0
        · omega
        · rw [if_neg h0]
          exact Nat.mul_pos (by omega) (Nat.lt_of_lt_of_le Nat.zero_lt_one (Nat.le_max_left 1 _))
      · rcases List.mem_cons.mp hp with heq | hmem
        · apply hmpos
          left
          rw [hcount]
          by_cases h0 : countKey acc k = 0
          · rw [if_pos h0]
            rw [heq] at hppos
            exact hppos
          · rw [if_neg h0]
            exact Nat.mul_pos (by omega)
              (Nat.lt_of_lt_of_le Nat.zero_lt_one (Nat.le_max_left 1 _))
        · apply hmpos
          right
          exact ⟨p, hmem, hppos⟩
    · rw [if_neg hg] at h
      cases h

/-- C4 (amended): provided every projected source holds a given
normalized key at most once, the outer-merge fold keeps that key unique:
it appears exactly once in the merged frame whenever at least one source
holds it.  (Without the at-most-once proviso the outer merge multiplies
duplicate keys, as the recorded counterexample shows.) -/
theorem C4_merged_key_unique_amended (projected : List (String × DF)) (m : DF) (k : String)
    (hok : merge_projected_data projected = .ok m)
    (hwfs : ∀ p ∈ projected, p.2.WFb = true)
    (hkeys : ∀ p ∈ projected, p.2.hasCol "Key" = true)
    (hdup : ∀ p ∈ projected, countKey p.2 k ≤ 1)
    (hpres : ∃ p ∈ projected, 0 < countKey p.2 k) :
    countKey m k = 1 := by
  cases projected with
  | nil =>
    obtain ⟨p, hp, _⟩ := hpres
    exact absurd hp (List.not_mem_nil p)
  | cons q rest =>
    obtain ⟨s, df⟩ := q
    unfold merge_projected_data at hok
    have hacc1 : countKey (rename_source_columns df s) k ≤ 1 := by
      rw [countKey_rename]
      exact hdup (s, df) (by simp)
    obtain ⟨_, hmpos⟩ := mergeFold_count k rest (rename_source_columns df s) m hok
      (rename_WF df s (hwfs (s, df) (by simp)))
      (by rw [rename_hasKey]; exact hkeys (s, df) (by simp))
      (fun p hp => hwfs p (List.mem_cons_of_mem _ hp))
      hacc1 (fun p hp => hdup p (List.mem_cons_of_mem _ hp))
    apply hmpos
    obtain ⟨p, hp, hppos⟩ := hpres
    rcases List.mem_cons.mp hp with heq | hmem
    · left
      rw [countKey_rename]
      rw [heq] at hppos
      exact hppos
    · right
      exact ⟨p, hmem, hppos⟩

/-- C4 witness: two single-row projected sources sharing the key "1"
merge to a frame holding that key exactly once. -/
theorem C4_merged_key_unique_amended_witness :
    (merge_projected_data [("A", DF.mk 1 [("Key", [Cell.str "1"])]),
        ("B", DF.mk 1 [("Key", [Cell.str "1"]), ("val", [Cell.str "x"])])] =
      .ok (okMerge (merge_projected_data [("A", DF.mk 1 [("Key", [Cell.str "1"])]),
        ("B", DF.mk 1 [("Key", [Cell.str "1"]), ("val", [Cell.str "x"])])]))) ∧
    countKey (okMerge (merge_projected_data [("A", DF.mk 1 [("Key", [Cell.str "1"])]),
        ("B", DF.mk 1 [("Key", [Cell.str "1"]), ("val", [Cell.str "x"])])])) "1" = 1 :=
  ⟨rfl,
   C4_merged_key_unique_amended
     [("A", DF.mk 1 [("Key", [Cell.str "1"])]),
      ("B", DF.mk 1 [("Key", [Cell.str "1"]), ("val", [Cell.str "x"])])]
     (okMerge (merge_projected_data [("A", DF.mk 1 [("Key", [Cell.str "1"])]),
        ("B", DF.mk 1 [("Key", [Cell.str "1"]), ("val", [Cell.str "x"])])]))
     "1" rfl (by decide) (by decide) (by decide)
     ⟨("A", DF.mk 1 [("Key", [Cell.str "1"])]), by decide, by decide⟩⟩

theorem getD_zipWith {α β γ : Type} (f : α → β → γ) (a : List α) (b : List β)
    (i : Nat) (hia : i < a.length) (hib : i < b.length) (da : α) (db : β) (dc : γ) :
    (List.zipWith f a b).getD i dc = f (a.getD i da) (b.getD i db) := by
  induction a generalizing b i with
  | nil => cases hia
  | cons x xs ih =>
    cases b with
    | nil => cases hib
    | cons y ys =>
      cases i with
      | zero => rfl
      | succ j =>
        exact ih ys j (Nat.lt_of_succ_lt_succ hia) (Nat.lt_of_succ_lt_succ hib)

theorem getD_ne_na (l : List Cell) (i : Nat) (h : ∀ c ∈ l, c ≠ Cell.na) :
    l.getD i Cell.nan ≠ Cell.na := by
  by_cases hi : i < l.length
  · have hm : l.getD i Cell.nan ∈ l := by
      rw [List.getD_eq_getElem?_getD, List.getElem?_eq_getElem hi]
      exact List.getElem_mem hi
    exact h _ hm
  · have hd : l.getD i Cell.nan = Cell.nan := by
      rw [List.getD_eq_getElem?_getD, List.getElem?_eq_none (by omega)]
      rfl
    rw [hd]
    intro hcon
    cases hcon

theorem specMatchFlag_cases (vals : List Cell) :
    specMatchFlag vals = Cell.str "ja" ∨ specMatchFlag vals = Cell.str "nee" := by
  cases vals with
  | nil => exact Or.inl rfl
  | cons ref rest =>
    simp only [specMatchFlag]
    by_cases h : (rest.all (fun v => cellEqStrict ref v) || (ref :: rest).all Cell.isna) = true
    · rw [if_pos h]
      exact Or.inl rfl
    · rw [if_neg h]
      exact Or.inr rfl

theorem merged_nonempty (merged : DF) (hkm : merged.hasCol "Key" = true)
    (i : Nat) (hi : i < merged.nrows) : merged.isEmpty = false := by
  cases hq : merged.isEmpty with
  | false => rfl
  | true =>
    exfalso
    unfold DF.isEmpty at hq
    rcases Bool.or_eq_true_iff.mp hq with h0 | hce
    · have h0' : merged.nrows = 0 := by simpa using h0
      rw [h0'] at hi
      cases hi
    · unfold DF.hasCol at hkm
      rw [List.isEmpty_iff.mp hce] at hkm
      cases hkm

theorem compare_column_values_cons (ref : List Cell) (rest : List (List Cell))
    (merged : DF) (hlen : 0 < rest.length) (hne : merged.isEmpty = false) :
    compare_column_values (ref :: rest) merged =
      ((List.range merged.nrows).map (fun i =>
          rest.foldl (fun acc s => acc.and (cellEq (ref.getD i Cell.nan) (s.getD i Cell.nan)))
            TB.t),
       (List.range merged.nrows).map (fun i =>
          (ref :: rest).foldl (fun acc s => acc.and (TB.ofBool (s.getD i Cell.nan).isna))
            TB.t)) := by
  unfold compare_column_values
  rw [if_neg (by simp only [List.length_cons]; omega)]
  dsimp only
  rw [if_neg (by simp [hne])]

theorem matchColCells_getD (merged : DF) (s0 : String) (srest : List String) (col : String)
    (hlen : 0 < srest.length) (hne : merged.isEmpty = false) (i : Nat)
    (hi : i < merged.nrows) :
    (matchColCells merged (s0 :: srest) col).getD i Cell.nan =
      mapJaNee (TB.or
        ((srest.map (fun s => sourceValueCol merged s col)).foldl
          (fun acc s => acc.and (cellEq ((sourceValueCol merged s0 col).getD i Cell.nan)
            (s.getD i Cell.nan))) TB.t)
        ((sourceValueCol merged s0 col :: srest.map (fun s => sourceValueCol merged s col)).foldl
          (fun acc s => acc.and (TB.ofBool (s.getD i Cell.nan).isna)) TB.t)) := by
  simp only [matchColCells, colValuesFor]
  rw [List.map_cons]
  rw [compare_column_values_cons _ _ merged (by simpa using hlen) hne]
  dsimp only
  rw [if_pos (by simp)]
  rw [getD_map mapJaNee _ i TB.t Cell.nan (by
    simp only [List.length_zipWith, List.length_map, List.length_range]
    simpa using hi)]
  rw [getD_zipWith TB.or _ _ i (by simpa using hi) (by simpa using hi) TB.t TB.t TB.t]
  rw [getD_range_map _ _ _ _ hi, getD_range_map _ _ _ _ hi]

theorem matchColCells_spec (merged : DF) (s0 : String) (srest : List String) (col : String)
    (hlen : 0 < srest.length) (hne : merged.isEmpty = false) (i : Nat)
    (hi : i < merged.nrows)
    (hnoNA : ∀ s ∈ s0 :: srest, (sourceValueCol merged s col).getD i Cell.nan ≠ Cell.na) :
    (matchColCells merged (s0 :: srest) col).getD i Cell.nan =
      specMatchFlag ((s0 :: srest).map
        (fun s => (sourceValueCol merged s col).getD i Cell.nan)) := by
  rw [matchColCells_getD merged s0 srest col hlen hne i hi]
  have h0 : (sourceValueCol merged s0 col).getD i Cell.nan ≠ Cell.na := hnoNA s0 (by simp)
  have hA : (srest.map (fun s => sourceValueCol merged s col)).foldl
      (fun acc s => acc.and (cellEq ((sourceValueCol merged s0 col).getD i Cell.nan)
        (s.getD i Cell.nan))) TB.t =
      TB.ofBool (srest.all (fun s => cellEqStrict
        ((sourceValueCol merged s0 col).getD i Cell.nan)
        ((sourceValueCol merged s col).getD i Cell.nan))) := by
    rw [List.foldl_map]
    rw [foldl_congr_mem srest _
      (fun acc s => acc.and (TB.ofBool (cellEqStrict
        ((sourceValueCol merged s0 col).getD i Cell.nan)
        ((sourceValueCol merged s col).getD i Cell.nan)))) TB.t
      (fun acc s hs => by
        rw [cellEq_eq_strict _ _ h0 (hnoNA s (List.mem_cons_of_mem s0 hs))])]
    exact foldl_and_ofBool _ srest true
  have hB : (sourceValueCol merged s0 col ::
      srest.map (fun s => sourceValueCol merged s col)).foldl
      (fun acc s => acc.and (TB.ofBool (s.getD i Cell.nan).isna)) TB.t =
      TB.ofBool ((s0 :: srest).all
        (fun s => ((sourceValueCol merged s col).getD i Cell.nan).isna)) := by
    have h1 : (sourceValueCol merged s0 col ::
        srest.map (fun s => sourceValueCol merged s col)) =
        (s0 :: srest).map (fun s => sourceValueCol merged s col) := rfl
    rw [h1, List.foldl_map]
    exact foldl_and_ofBool _ _ true
  rw [hA, hB, TB.ofBool_or, mapJaNee_ofBool]
  rw [List.map_cons]
  simp only [specMatchFlag]
  rw [all_map_manual]
  rw [show ((sourceValueCol merged s0 col).getD i Cell.nan ::
      srest.map (fun s => (sourceValueCol merged s col).getD i Cell.nan)) =
      (s0 :: srest).map (fun s => (sourceValueCol merged s col).getD i Cell.nan) from rfl]
  rw [all_map_manual]
  unfold boolJaNee
  rfl

theorem matchColCells_spec2 (merged : DF) (labels : List String) (col : String)
    (hlen : 2 ≤ labels.length) (hne : merged.isEmpty = false) (i : Nat)
    (hi : i < merged.nrows)
    (hnoNA : ∀ s ∈ labels, (sourceValueCol merged s col).getD i Cell.nan ≠ Cell.na) :
    (matchColCells merged labels col).getD i Cell.nan =
      specMatchFlag (labels.map (fun s => (sourceValueCol merged s col).getD i Cell.nan)) := by
  cases labels with
  | nil => cases hlen
  | cons s0 srest =>
    exact matchColCells_spec merged s0 srest col
      (by simp only [List.length_cons] at hlen; omega) hne i hi hnoNA

/-- C1 (amended): with at least two configured sources and missing values
represented by NaN rather than `pd.NA` in the per-source value columns,
every `Match_<col>` cell is "ja" exactly when all sources' values for
that column equal the first source's value or all are missing, and "nee"
otherwise.  (With a single source the claimed vacuous "yes" fails: the
empty comparison series reindexes to an all-NaN column, as the recorded
counterexample shows.) -/
theorem C1_match_column_amended (src : List (String × DF)) (cols : List String)
    (key : String) (r : DF) (m mm : Nat) (col : String)
    (hwfs : ∀ p ∈ src, p.2.WFb = true)
    (hok : compare_sources src cols key = .ok (r, m, mm))
    (hnd : ((okBuild (compare_build src cols key)).1.map Prod.fst).Nodup)
    (hcol : col ∈ filteredCols cols key)
    (h2 : 2 ≤ src.length)
    (hnoNA : ∀ s ∈ src.map Prod.fst,
      ∀ c ∈ sourceValueCol (okBuild (compare_build src cols key)).2.1 s col,
        c ≠ Cell.na) :
    ∀ i, i < r.nrows →
      r.cell ("Match_" ++ col) i =
        specMatchFlag ((src.map Prod.fst).map (fun s =>
          (sourceValueCol (okBuild (compare_build src cols key)).2.1 s col).getD
            i Cell.nan)) := by
  obtain ⟨rc, merged, fcols, nM, hb, hr, hall⟩ := compare_sources_ok src cols key r m mm hok
  obtain ⟨hfc, hm, hp, hrc, hnM⟩ := compare_build_ok src cols key rc merged fcols nM hb
  subst hfc
  rw [hb] at hnd hnoNA ⊢
  dsimp only [okBuild] at hnd hnoNA ⊢
  have hwfp : ∀ p ∈ project_source_data src (filteredCols cols key) key, p.2.WFb = true := by
    intro p hpm
    obtain ⟨q, hq, rfl⟩ := List.mem_map.mp hpm
    exact project_WF q.2 _ key (hwfs q hq)
  have hkp : ∀ p ∈ project_source_data src (filteredCols cols key) key,
      p.2.hasCol "Key" = true := by
    intro p hpm
    exact List.all_eq_true.mp hp p hpm
  obtain ⟨hwfm, hkm⟩ := merge_ok_facts _ merged hm hwfp hkp
  have hrn : r.nrows = merged.nrows := by rw [hr]
  intro i hi
  rw [hrn] at hi
  have hme' : merged.isEmpty = false := merged_nonempty merged hkm i hi
  have hcell : r.cell ("Match_" ++ col) i =
      (matchColCells merged (src.map Prod.fst) col).getD i Cell.nan := by
    rw [hr]
    rw [result_cell _ rc _ _
      (mem_ordered_matchCol rc (filteredCols cols key) (src.map Prod.fst) col hcol) i]
    rw [rcFind_of_nodup rc _ _ hnd (by
      rw [hrc]
      exact mem_buildRC_matchCol merged _ (src.map Prod.fst) (filteredCols cols key)
        col hcol hme')]
  rw [hcell]
  exact matchColCells_spec2 merged (src.map Prod.fst) col (by simpa using h2) hme' i hi
    (fun s hs => getD_ne_na _ i (hnoNA s hs))

/-- C1 witness: the amended statement at a concrete two-source pass. -/
theorem C1_match_column_amended_witness :
    (∀ p ∈ [("A", exDF1), ("B", exDF2)], p.2.WFb = true) ∧
    (((okBuild (compare_build [("A", exDF1), ("B", exDF2)] ["val"] "id")).1.map
        Prod.fst).Nodup) ∧
    ("val" ∈ filteredCols ["val"] "id") ∧
    (∀ s ∈ [("A", exDF1), ("B", exDF2)].map Prod.fst,
      ∀ c ∈ sourceValueCol
          (okBuild (compare_build [("A", exDF1), ("B", exDF2)] ["val"] "id")).2.1 s "val",
        c ≠ Cell.na) ∧
    (∀ i, i < (okResult (compare_sources [("A", exDF1), ("B", exDF2)] ["val"] "id")).nrows →
      (okResult (compare_sources [("A", exDF1), ("B", exDF2)] ["val"] "id")).cell
          ("Match_" ++ "val") i =
        specMatchFlag (([("A", exDF1), ("B", exDF2)].map Prod.fst).map (fun s =>
          (sourceValueCol
            (okBuild (compare_build [("A", exDF1), ("B", exDF2)] ["val"] "id")).2.1
            s "val").getD i Cell.nan))) :=
  ⟨by decide, by decide, by decide, by decide,
   C1_match_column_amended [("A", exDF1), ("B", exDF2)] ["val"] "id"
     (okResult (compare_sources [("A", exDF1), ("B", exDF2)] ["val"] "id"))
     (okMatches (compare_sources [("A", exDF1), ("B", exDF2)] ["val"] "id"))
     (okMismatches (compare_sources [("A", exDF1), ("B", exDF2)] ["val"] "id"))
     "val" (by decide) rfl (by decide) (by decide) (by decide) (by decide)⟩

theorem TB_and_ne_na (a b : TB) (ha : a ≠ TB.na) (hb : b ≠ TB.na) : a.and b ≠ TB.na := by
  cases a <;> cases b <;> first
    | exact fun h => TB.noConfusion h
    | exact absurd rfl ha
    | exact absurd rfl hb

theorem TB_or_ne_na (a b : TB) (ha : a ≠ TB.na) (hb : b ≠ TB.na) : a.or b ≠ TB.na := by
  cases a <;> cases b <;> first
    | exact fun h => TB.noConfusion h
    | exact absurd rfl ha
    | exact absurd rfl hb

theorem TB_ofBool_ne_na (b : Bool) : TB.ofBool b ≠ TB.na := by
  cases b <;> exact fun h => TB.noConfusion h

theorem cellEq_ne_na (x y : Cell) (hx : x ≠ Cell.na) (hy : y ≠ Cell.na) :
    cellEq x y ≠ TB.na := by
  rw [cellEq_eq_strict x y hx hy]
  exact TB_ofBool_ne_na _

theorem mapJaNee_cases (tb : TB) (h : tb ≠ TB.na) :
    mapJaNee tb = Cell.str "ja" ∨ mapJaNee tb = Cell.str "nee" := by
  cases tb with
  | t => exact Or.inl rfl
  | f => exact Or.inr rfl
  | na => exact absurd rfl h

theorem foldl_and_ne_na {α : Type} (l : List α) (g : α → TB) :
    ∀ (init : TB), init ≠ TB.na → (∀ x ∈ l, g x ≠ TB.na) →
    l.foldl (fun acc x => acc.and (g x)) init ≠ TB.na := by
  induction l with
  | nil => intro init hinit _; exact hinit
  | cons a t ih =>
    intro init hinit h
    rw [List.foldl_cons]
    exact ih _ (TB_and_ne_na init (g a) hinit (h a (by simp)))
      (fun x hx => h x (List.mem_cons_of_mem a hx))

theorem alignAndFalse_length (a b : List TB) :
    (alignAndFalse a b).length = max a.length b.length := by
  unfold alignAndFalse
  rw [List.length_map, List.length_range]

theorem alignAndFalse_getD (a b : List TB) (j : Nat) :
    (alignAndFalse a b).getD j TB.f = (a.getD j TB.f).and (b.getD j TB.f) := by
  unfold alignAndFalse
  by_cases hj : j < max a.length b.length
  · rw [getD_range_map _ _ _ _ hj]
  · have hja : a.getD j TB.f = TB.f := List.getD_eq_default _ _ (by omega)
    have hjb : b.getD j TB.f = TB.f := List.getD_eq_default _ _ (by omega)
    have hjm : ((List.range (max a.length b.length)).map
        (fun i => (a.getD i TB.f).and (b.getD i TB.f))).getD j TB.f = TB.f :=
      List.getD_eq_default _ _ (by
        rw [List.length_map, List.length_range]
        omega)
    rw [hjm, hja, hjb]
    rfl

theorem allPresentSeries_length (merged : DF) (projected : List (String × DF))
    (hne : merged.isEmpty = false) (hwfm : merged.WFb = true)
    (hkm : merged.hasCol "Key" = true) :
    (allPresentSeries merged projected).length = merged.nrows := by
  unfold allPresentSeries
  rw [if_neg (by simp [hne])]
  have heq : projected.foldl
      (fun acc p => zipAnd acc (create_presence_series merged (sourceKeys p.2)))
      (List.replicate merged.nrows true) =
      (projected.map (fun p => create_presence_series merged (sourceKeys p.2))).foldl
        zipAnd (List.replicate merged.nrows true) :=
    (List.foldl_map _ _ _ _).symm
  rw [heq]
  obtain ⟨hflen, _⟩ := foldl_zipAnd
    (projected.map (fun p => create_presence_series merged (sourceKeys p.2)))
    (List.replicate merged.nrows true)
    (by
      intro l hl
      obtain ⟨p, hpm, rfl⟩ := List.mem_map.mp hl
      rw [List.length_replicate]
      exact create_presence_series_length merged _ hne hwfm hkm)
  rw [hflen, List.length_replicate]

theorem combined_length (merged : DF) (labels : List String) (col : String)
    (h2 : 2 ≤ labels.length) (hne : merged.isEmpty = false) :
    (List.zipWith TB.or (compare_column_values (colValuesFor merged labels col) merged).1
      (compare_column_values (colValuesFor merged labels col) merged).2).length =
      merged.nrows := by
  cases labels with
  | nil => simp at h2
  | cons s0 srest =>
    unfold colValuesFor
    rw [List.map_cons, compare_column_values_cons _ _ merged
      (by simp only [List.length_cons] at h2; simp only [List.length_map]; omega) hne]
    simp [List.length_zipWith]

theorem combined_ne_na (merged : DF) (labels : List String) (col : String)
    (h2 : 2 ≤ labels.length) (hne : merged.isEmpty = false)
    (hnoNA : ∀ s ∈ labels, ∀ c ∈ sourceValueCol merged s col, c ≠ Cell.na) (j : Nat) :
    (List.zipWith TB.or (compare_column_values (colValuesFor merged labels col) merged).1
      (compare_column_values (colValuesFor merged labels col) merged).2).getD j TB.f ≠
      TB.na := by
  cases labels with
  | nil => simp at h2
  | cons s0 srest =>
    unfold colValuesFor
    rw [List.map_cons, compare_column_values_cons _ _ merged
      (by simp only [List.length_cons] at h2; simp only [List.length_map]; omega) hne]
    by_cases hj : j < merged.nrows
    · rw [getD_zipWith TB.or _ _ j (by simpa using hj) (by simpa using hj) TB.t TB.t TB.f]
      rw [getD_range_map _ _ _ _ hj, getD_range_map _ _ _ _ hj]
      apply TB_or_ne_na
      · apply foldl_and_ne_na _ _ TB.t (fun h => TB.noConfusion h)
        intro x hx
        obtain ⟨s, hs, rfl⟩ := List.mem_map.mp hx
        exact cellEq_ne_na _ _
          (getD_ne_na _ j (hnoNA s0 (by simp)))
          (getD_ne_na _ j (hnoNA s (List.mem_cons_of_mem s0 hs)))
      · apply foldl_and_ne_na _ _ TB.t (fun h => TB.noConfusion h)
        intro x _
        exact TB_ofBool_ne_na _
    · have hd : (List.zipWith TB.or
          ((List.range merged.nrows).map (fun i =>
            (srest.map (fun s => sourceValueCol merged s col)).foldl
              (fun acc s => acc.and (cellEq ((sourceValueCol merged s0 col).getD i Cell.nan)
                (s.getD i Cell.nan))) TB.t))
          ((List.range merged.nrows).map (fun i =>
            (sourceValueCol merged s0 col ::
              srest.map (fun s => sourceValueCol merged s col)).foldl
              (fun acc s => acc.and (TB.ofBool (s.getD i Cell.nan).isna)) TB.t))).getD
          j TB.f = TB.f :=
        List.getD_eq_default _ _ (by
          simp only [List.length_zipWith, List.length_map, List.length_range]
          omega)
      rw [hd]
      exact fun h => TB.noConfusion h

theorem foldl_align_ne_na (merged : DF) (labels : List String) :
    ∀ (cs : List String) (acc : List TB),
    (∀ col ∈ cs, ∀ j : Nat,
      (List.zipWith TB.or (compare_column_values (colValuesFor merged labels col) merged).1
        (compare_column_values (colValuesFor merged labels col) merged).2).getD j TB.f ≠
        TB.na) →
    (∀ j : Nat, acc.getD j TB.f ≠ TB.na) →
    ∀ j : Nat, (cs.foldl (fun acc col =>
        alignAndFalse acc (List.zipWith TB.or
          (compare_column_values (colValuesFor merged labels col) merged).1
          (compare_column_values (colValuesFor merged labels col) merged).2)) acc).getD
      j TB.f ≠ TB.na
  | [], acc, _, hacc, j => hacc j
  | c :: cs, acc, hcs, hacc, j => by
    rw [List.foldl_cons]
    refine foldl_align_ne_na merged labels cs _
      (fun col hcol => hcs col (List.mem_cons_of_mem c hcol)) ?_ j
    intro j2
    rw [alignAndFalse_getD]
    exact TB_and_ne_na _ _ (hacc j2) (hcs c (by simp) j2)

theorem foldl_align_length (merged : DF) (labels : List String)
    (h2 : 2 ≤ labels.length) (hne : merged.isEmpty = false) :
    ∀ (cs : List String) (acc : List TB), acc.length = merged.nrows →
    (cs.foldl (fun acc col =>
        alignAndFalse acc (List.zipWith TB.or
          (compare_column_values (colValuesFor merged labels col) merged).1
          (compare_column_values (colValuesFor merged labels col) merged).2)) acc).length =
      merged.nrows
  | [], acc, hacc => hacc
  | c :: cs, acc, hacc => by
    rw [List.foldl_cons]
    refine foldl_align_length merged labels h2 hne cs _ ?_
    rw [alignAndFalse_length, hacc, combined_length merged labels c h2 hne]
    simp

theorem allColsMatchSeries_ne_na (merged : DF) (labels : List String)
    (fcols : List String) (h2 : 2 ≤ labels.length) (hne : merged.isEmpty = false)
    (hnoNA : ∀ col ∈ fcols, ∀ s ∈ labels, ∀ c ∈ sourceValueCol merged s col, c ≠ Cell.na)
    (j : Nat) : (allColsMatchSeries merged labels fcols).getD j TB.f ≠ TB.na := by
  simp only [allColsMatchSeries]
  rw [if_neg (by simp [hne])]
  refine foldl_align_ne_na merged labels fcols _
    (fun col hcol j2 => combined_ne_na merged labels col h2 hne (hnoNA col hcol) j2) ?_ j
  intro j2
  by_cases hj2 : j2 < merged.nrows
  · rw [getD_replicate TB.t TB.f merged.nrows j2 hj2]
    exact fun h => TB.noConfusion h
  · rw [List.getD_eq_default _ _ (by rw [List.length_replicate]; omega)]
    exact fun h => TB.noConfusion h

theorem allColsMatchSeries_length (merged : DF) (labels : List String)
    (fcols : List String) (h2 : 2 ≤ labels.length) (hne : merged.isEmpty = false) :
    (allColsMatchSeries merged labels fcols).length = merged.nrows := by
  simp only [allColsMatchSeries]
  rw [if_neg (by simp [hne])]
  exact foldl_align_length merged labels h2 hne fcols _ (List.length_replicate _ _)

/-- C10 (amended): with at least two configured sources and missing
values carried as NaN rather than `pd.NA` in the per-source value
columns, every cell of every derived flag column (`Aanwezig_<source>`,
`Match_Key`, `Match_<col>`, `BronMatch`) is one of the two literal flag
strings.  (With a single source the `Match_<col>` columns are all-NaN
instead, as the recorded counterexample shows.) -/
theorem C10_flag_cells_amended (src : List (String × DF)) (cols : List String)
    (key : String) (r : DF) (m mm : Nat)
    (hwfs : ∀ p ∈ src, p.2.WFb = true)
    (hok : compare_sources src cols key = .ok (r, m, mm))
    (hnd : ((okBuild (compare_build src cols key)).1.map Prod.fst).Nodup)
    (h2 : 2 ≤ src.length)
    (hnoNA : ∀ col ∈ filteredCols cols key, ∀ s ∈ src.map Prod.fst,
      ∀ c ∈ sourceValueCol (okBuild (compare_build src cols key)).2.1 s col,
        c ≠ Cell.na) :
    ∀ n ∈ flagColumnNames (src.map Prod.fst) (filteredCols cols key),
      ∀ i, i < r.nrows →
        r.cell n i = Cell.str "ja" ∨ r.cell n i = Cell.str "nee" := by
  obtain ⟨rc, merged, fcols, nM, hb, hr, hall⟩ := compare_sources_ok src cols key r m mm hok
  obtain ⟨hfc, hm, hp, hrc, hnM⟩ := compare_build_ok src cols key rc merged fcols nM hb
  subst hfc
  rw [hb] at hnd hnoNA
  dsimp only [okBuild] at hnd hnoNA
  have hwfp : ∀ p ∈ project_source_data src (filteredCols cols key) key, p.2.WFb = true := by
    intro p hpm
    obtain ⟨q, hq, rfl⟩ := List.mem_map.mp hpm
    exact project_WF q.2 _ key (hwfs q hq)
  have hkp : ∀ p ∈ project_source_data src (filteredCols cols key) key,
      p.2.hasCol "Key" = true := by
    intro p hpm
    exact List.all_eq_true.mp hp p hpm
  obtain ⟨hwfm, hkm⟩ := merge_ok_facts _ merged hm hwfp hkp
  have hrn : r.nrows = merged.nrows := by rw [hr]
  intro n hn i hi
  rw [hrn] at hi
  have hme' : merged.isEmpty = false := merged_nonempty merged hkm i hi
  have hplen : ∀ p ∈ project_source_data src (filteredCols cols key) key,
      (create_presence_series merged (sourceKeys p.2)).length = merged.nrows := by
    intro p _
    exact create_presence_series_length merged _ hme' hwfm hkm
  unfold flagColumnNames at hn
  rcases List.mem_append.mp hn with hn1 | hnB
  · rcases List.mem_append.mp hn1 with hnA | hnMB
    · obtain ⟨s, hsmem, rfl⟩ := List.mem_map.mp hnA
      obtain ⟨q, hq, rfl⟩ := List.mem_map.mp hsmem
      have hmemP : ((q.1, project_single_source_data q.2 (filteredCols cols key) key) :
          String × DF) ∈ project_source_data src (filteredCols cols key) key :=
        List.mem_map.mpr ⟨q, hq, rfl⟩
      have hmemRC : ("Aanwezig_" ++ q.1,
          (create_presence_series merged
            (sourceKeys (project_single_source_data q.2 (filteredCols cols key) key))).map
            boolJaNee) ∈ buildRC merged
              (project_source_data src (filteredCols cols key) key)
              (src.map Prod.fst) (filteredCols cols key) := by
        simpa using mem_buildRC_presence merged _ (src.map Prod.fst) (filteredCols cols key)
          (q.1, project_single_source_data q.2 (filteredCols cols key) key) hmemP
      rw [hr]
      rw [result_cell _ rc _ _ (mem_ordered_presence rc (filteredCols cols key)
        (src.map Prod.fst) q.1 (by rw [hrc]; exact List.mem_map.mpr ⟨_, hmemRC, rfl⟩)) i]
      rw [rcFind_of_nodup rc _ _ hnd (by rw [hrc]; exact hmemRC)]
      rw [getD_map boolJaNee _ i false Cell.nan (by rw [hplen _ hmemP]; exact hi)]
      exact boolJaNee_cases _
    · have hnMB2 : n = "Match_Key" ∨ n = "BronMatch" := by simpa using hnMB
      rcases hnMB2 with rfl | rfl
      · rw [hr]
        rw [result_cell _ rc _ "Match_Key"
          (mem_ordered_matchKey rc (filteredCols cols key) (src.map Prod.fst)) i]
        rw [rcFind_of_nodup rc "Match_Key" _ hnd (by
          rw [hrc]
          exact mem_buildRC_matchKey merged _ (src.map Prod.fst) (filteredCols cols key))]
        unfold matchKeyCells
        rw [if_neg (by simp [hme'])]
        rw [getD_map boolJaNee _ i false Cell.nan (by
          rw [allPresentSeries_length merged _ hme' hwfm hkm]
          exact hi)]
        exact boolJaNee_cases _
      · rw [hr]
        rw [result_cell _ rc _ "BronMatch"
          (mem_ordered_bronMatch rc (filteredCols cols key) (src.map Prod.fst)) i]
        rw [rcFind_of_nodup rc "BronMatch" _ hnd (by
          rw [hrc]
          exact mem_buildRC_bronMatch merged _ (src.map Prod.fst) (filteredCols cols key))]
        unfold bronMatchCells
        rw [if_neg (by simp [hme'])]
        have hAPlen : (allPresentSeries merged
            (project_source_data src (filteredCols cols key) key)).length = merged.nrows :=
          allPresentSeries_length merged _ hme' hwfm hkm
        have hACMlen : (allColsMatchSeries merged (src.map Prod.fst)
            (filteredCols cols key)).length = merged.nrows :=
          allColsMatchSeries_length merged _ _ (by simpa using h2) hme'
        rw [getD_map mapJaNee _ i TB.f Cell.nan (by
          unfold rowFullMatch
          rw [List.length_zipWith, hAPlen, hACMlen]
          simpa using hi)]
        unfold rowFullMatch
        rw [getD_zipWith _ _ _ i (by rw [hAPlen]; exact hi) (by rw [hACMlen]; exact hi)
          false TB.f TB.f]
        refine mapJaNee_cases _ (TB_and_ne_na _ _ (TB_ofBool_ne_na _) ?_)
        exact allColsMatchSeries_ne_na merged (src.map Prod.fst) (filteredCols cols key)
          (by simpa using h2) hme' (fun col hcol s hs => hnoNA col hcol s hs) i
  · obtain ⟨col, hcol, rfl⟩ := List.mem_map.mp hnB
    rw [hr]
    rw [result_cell _ rc _ _
      (mem_ordered_matchCol rc (filteredCols cols key) (src.map Prod.fst) col hcol) i]
    rw [rcFind_of_nodup rc _ _ hnd (by
      rw [hrc]
      exact mem_buildRC_matchCol merged _ (src.map Prod.fst) (filteredCols cols key)
        col hcol hme')]
    rw [matchColCells_spec2 merged (src.map Prod.fst) col (by simpa using h2) hme' i hi
      (fun s hs => getD_ne_na _ i (hnoNA col hcol s hs))]
    exact specMatchFlag_cases _

/-- C10 witness: the amended statement at a concrete two-source pass. -/
theorem C10_flag_cells_amended_witness :
    (∀ p ∈ [("A", exDF1), ("B", exDF2)], p.2.WFb = true) ∧
    (((okBuild (compare_build [("A", exDF1), ("B", exDF2)] ["val"] "id")).1.map
        Prod.fst).Nodup) ∧
    (2 ≤ ([("A", exDF1), ("B", exDF2)] : List (String × DF)).length) ∧
    (∀ col ∈ filteredCols ["val"] "id", ∀ s ∈ [("A", exDF1), ("B", exDF2)].map Prod.fst,
      ∀ c ∈ sourceValueCol
          (okBuild (compare_build [("A", exDF1), ("B", exDF2)] ["val"] "id")).2.1 s col,
        c ≠ Cell.na) ∧
    (∀ n ∈ flagColumnNames ([("A", exDF1), ("B", exDF2)].map Prod.fst)
        (filteredCols ["val"] "id"),
      ∀ i, i < (okResult (compare_sources [("A", exDF1), ("B", exDF2)] ["val"] "id")).nrows →
        (okResult (compare_sources [("A", exDF1), ("B", exDF2)] ["val"] "id")).cell n i =
            Cell.str "ja" ∨
          (okResult (compare_sources [("A", exDF1), ("B", exDF2)] ["val"] "id")).cell n i =
            Cell.str "nee") :=
  ⟨by decide, by decide, by decide, by decide,
   C10_flag_cells_amended [("A", exDF1), ("B", exDF2)] ["val"] "id"
     (okResult (compare_sources [("A", exDF1), ("B", exDF2)] ["val"] "id"))
     (okMatches (compare_sources [("A", exDF1), ("B", exDF2)] ["val"] "id"))
     (okMismatches (compare_sources [("A", exDF1), ("B", exDF2)] ["val"] "id"))
     (by decide) rfl (by decide) (by decide) (by decide)⟩

end DWH
